import Mathlib

/-!
Shallow embedding of the karaoke room/queue server: the two persisted
entities (rooms, queue items) from the shared schema, the storage layer
(DatabaseStorage), the HTTP routes and the realtime message handler from
the routes module. Identifiers are modelled as natural numbers drawn from
a fresh-id counter (the database generates unique uuids); machine strings
stay strings. Broadcasts and direct socket sends are modelled as an
explicit output list.
-/

namespace Kara

/-- Queue item status column: the repository only ever stores the two
values "waiting" and "playing". -/
inductive Status where
  | waiting
  | playing
deriving DecidableEq

/-- Row of the rooms table (createdAt omitted: never read by the server). -/
structure Room where
  id : Nat
  code : String
  currentVideoId : Option String
  currentVideoTitle : Option String
  currentVideoThumbnail : Option String
  isPlaying : Bool
deriving DecidableEq

/-- Row of the queue_items table (addedAt omitted: never read). -/
structure QueueItem where
  id : Nat
  roomId : Nat
  videoId : String
  title : String
  thumbnail : String
  channelTitle : Option String
  duration : Option String
  position : Nat
  status : Status
deriving DecidableEq

/-- The persistent store: both tables in row-insertion order, plus the
fresh-id source standing for gen_random_uuid. -/
structure DB where
  rooms : List Room
  queueItems : List QueueItem
  nextId : Nat
deriving DecidableEq

/-- Fields a Partial Room update may set; the id column is never updated
anywhere in the repository, so it is not representable here. -/
structure RoomUpdates where
  code : Option String := none
  currentVideoId : Option (Option String) := none
  currentVideoTitle : Option (Option String) := none
  currentVideoThumbnail : Option (Option String) := none
  isPlaying : Option Bool := none

/-- Fields a Partial QueueItem update may set (id never updated). -/
structure QueueItemUpdates where
  roomId : Option Nat := none
  videoId : Option String := none
  title : Option String := none
  thumbnail : Option String := none
  channelTitle : Option (Option String) := none
  duration : Option (Option String) := none
  position : Option Nat := none
  status : Option Status := none

def applyRoomUpdates (u : RoomUpdates) (r : Room) : Room :=
  { r with
    code := u.code.getD r.code
    currentVideoId := u.currentVideoId.getD r.currentVideoId
    currentVideoTitle := u.currentVideoTitle.getD r.currentVideoTitle
    currentVideoThumbnail := u.currentVideoThumbnail.getD r.currentVideoThumbnail
    isPlaying := u.isPlaying.getD r.isPlaying }

def applyQueueItemUpdates (u : QueueItemUpdates) (it : QueueItem) : QueueItem :=
  { it with
    roomId := u.roomId.getD it.roomId
    videoId := u.videoId.getD it.videoId
    title := u.title.getD it.title
    thumbnail := u.thumbnail.getD it.thumbnail
    channelTitle := u.channelTitle.getD it.channelTitle
    duration := u.duration.getD it.duration
    position := u.position.getD it.position
    status := u.status.getD it.status }

/-- Payload of storage.createRoom (InsertRoom). -/
structure InsertRoom where
  code : String
  currentVideoId : Option String
  currentVideoTitle : Option String
  currentVideoThumbnail : Option String
  isPlaying : Bool

/-- Payload of storage.addToQueue (InsertQueueItem). -/
structure InsertQueueItem where
  roomId : Nat
  videoId : String
  title : String
  thumbnail : String
  channelTitle : Option String
  duration : Option String
  position : Nat
  status : Status

/-- DatabaseStorage.createRoom: insert a fresh row and return it. -/
def createRoom (r : InsertRoom) (db : DB) : Room × DB :=
  let room : Room :=
    { id := db.nextId
      code := r.code
      currentVideoId := r.currentVideoId
      currentVideoTitle := r.currentVideoTitle
      currentVideoThumbnail := r.currentVideoThumbnail
      isPlaying := r.isPlaying }
  (room, { db with rooms := db.rooms ++ [room], nextId := db.nextId + 1 })

/-- DatabaseStorage.getRoomByCode: first row whose code column equals the
argument exactly (SQL string equality). -/
def getRoomByCode (code : String) (db : DB) : Option Room :=
  db.rooms.find? (fun r => r.code == code)

/-- DatabaseStorage.getRoom: lookup by id. -/
def getRoom (id : Nat) (db : DB) : Option Room :=
  db.rooms.find? (fun r => r.id == id)

/-- DatabaseStorage.updateRoom: set the given fields on every row whose id
matches (ids are unique in practice). The returned row is unused by all
call sites, so only the updated store is returned. -/
def updateRoom (id : Nat) (u : RoomUpdates) (db : DB) : DB :=
  { db with
    rooms := db.rooms.map (fun r => if r.id == id then applyRoomUpdates u r else r) }

/-- DatabaseStorage.addToQueue: insert a fresh row and return it. -/
def addToQueue (item : InsertQueueItem) (db : DB) : QueueItem × DB :=
  let queueItem : QueueItem :=
    { id := db.nextId
      roomId := item.roomId
      videoId := item.videoId
      title := item.title
      thumbnail := item.thumbnail
      channelTitle := item.channelTitle
      duration := item.duration
      position := item.position
      status := item.status }
  (queueItem, { db with queueItems := db.queueItems ++ [queueItem], nextId := db.nextId + 1 })

/-- Comparison used by the orderBy asc clause on the position column. -/
def posLe (a b : QueueItem) : Prop := a.position ≤ b.position

instance : DecidableRel posLe := fun a b => Nat.decLe a.position b.position

instance : IsTotal QueueItem posLe := ⟨fun a b => Nat.le_total a.position b.position⟩

instance : IsTrans QueueItem posLe := ⟨fun _ _ _ h h2 => Nat.le_trans h h2⟩

/-- DatabaseStorage.getQueueByRoomId: rows of the room ordered by
ascending position. -/
def getQueueByRoomId (roomId : Nat) (db : DB) : List QueueItem :=
  List.insertionSort posLe (db.queueItems.filter (fun it => it.roomId == roomId))

/-- DatabaseStorage.getNextInQueue: first waiting item of the ordered
queue (waitingItems[0]). -/
def getNextInQueue (roomId : Nat) (db : DB) : Option QueueItem :=
  ((getQueueByRoomId roomId db).filter (fun it => it.status == Status.waiting)).head?

/-- DatabaseStorage.removeFromQueue: delete every row with the given id. -/
def removeFromQueue (id : Nat) (db : DB) : DB :=
  { db with queueItems := db.queueItems.filter (fun it => !(it.id == id)) }

/-- DatabaseStorage.updateQueueItem: set the given fields on matching rows. -/
def updateQueueItem (id : Nat) (u : QueueItemUpdates) (db : DB) : DB :=
  { db with
    queueItems :=
      db.queueItems.map (fun it => if it.id == id then applyQueueItemUpdates u it else it) }

/-- DatabaseStorage.getMaxPosition: 0 for an empty queue, otherwise the
maximum position value among the rows of the room (Math.max). -/
def getMaxPosition (roomId : Nat) (db : DB) : Nat :=
  let queue := getQueueByRoomId roomId db
  if queue.isEmpty then 0
  else (queue.map (fun it => it.position)).foldl Nat.max 0

/-! ### ASCII case mapping, as performed by the JavaScript string methods
the routes call on room codes. Room codes only ever hold ASCII, where
toUpperCase and toLowerCase shift by 32 between the two letter ranges. -/

/-- Uppercase one character: ASCII fragment of String.prototype.toUpperCase. -/
def jsCharUpper (c : Char) : Char :=
  if 97 ≤ c.toNat ∧ c.toNat ≤ 122 then Char.ofNat (c.toNat - 32) else c

/-- Lowercase one character: ASCII fragment of String.prototype.toLowerCase. -/
def jsCharLower (c : Char) : Char :=
  if 65 ≤ c.toNat ∧ c.toNat ≤ 90 then Char.ofNat (c.toNat + 32) else c

/-- The toUpperCase call applied to a supplied room code. -/
def jsToUpperCase (s : String) : String := ⟨s.data.map jsCharUpper⟩

/-- Lowercase spelling of a room code. -/
def jsToLowerCase (s : String) : String := ⟨s.data.map jsCharLower⟩

/-- Alphabet used by generateRoomCode (no I, O, 0, 1). -/
def codeAlphabet : List Char := "ABCDEFGHJKLMNPQRSTUVWXYZ23456789".data

/-! ### Messages and outputs -/

/-- Server-to-client WSMessage variants. -/
inductive ServerMsg where
  | roomState (room : Room) (queue : List QueueItem)
  | queueUpdated (queue : List QueueItem)
  | songAdded (song : QueueItem)
  | songRemoved (songId : Nat)
  | playbackState (isPlaying : Bool)
  | currentSong (videoId : Option String) (title : Option String) (thumbnail : Option String)
  | error (message : String)
deriving DecidableEq

/-- One delivery action of the server: a direct ws.send to one socket, or
a broadcastToRoom fan-out keyed by room id. -/
inductive Output where
  | send (dest : Nat) (msg : ServerMsg)
  | broadcast (roomId : Nat) (msg : ServerMsg)
deriving DecidableEq

/-- Client-to-server message after JSON.parse: the four recognized type
tags, or any other type string (which the switch statement ignores). -/
inductive ClientMsg where
  | joinRoom (roomCode : String)
  | play
  | pause
  | skipSong
  | other (typeName : String)
deriving DecidableEq

/-- Raw inbound frame: either JSON.parse throws (malformed) or yields a
message. -/
inductive RawMessage where
  | malformed
  | parsed (msg : ClientMsg)
deriving DecidableEq

/-! ### HTTP routes -/

/-- Express response outcome of a route. -/
inductive ApiResult (α : Type) where
  | ok (value : α)
  | notFound (msg : String)
  | badRequest (msg : String)
deriving DecidableEq

/-- Request body of POST queue, after JSON decoding. -/
structure AddBody where
  videoId : String
  title : String
  thumbnail : String
  channelTitle : Option String
  duration : Option String
deriving DecidableEq

/-- addToQueueSchema: the three required fields must be nonempty strings. -/
def validBody (b : AddBody) : Bool :=
  !(b.videoId == "") && !(b.title == "") && !(b.thumbnail == "")

/-- The idiom x || null of the route body fields: an empty or absent
optional string is stored as null. -/
def orNull (s : Option String) : Option String :=
  match s with
  | some t => if t == "" then none else some t
  | none => none

/-- POST /api/rooms with a given generated code (the retry loop of the
route guarantees the code is fresh; that guarantee is a hypothesis where
needed). -/
def postRoomsCreate (code : String) (db : DB) : Room × DB :=
  createRoom
    { code := code
      currentVideoId := none
      currentVideoTitle := none
      currentVideoThumbnail := none
      isPlaying := false } db

/-- GET /api/rooms/:code — uppercases the supplied code before lookup. -/
def getRoomRoute (code : String) (db : DB) : ApiResult (Room × List QueueItem) :=
  match getRoomByCode (jsToUpperCase code) db with
  | none => ApiResult.notFound "Room not found"
  | some room => ApiResult.ok (room, getQueueByRoomId room.id db)

/-- POST /api/rooms/:code/queue. -/
def postQueueRoute (code : String) (body : AddBody) (db : DB) :
    ApiResult QueueItem × DB × List Output :=
  match getRoomByCode (jsToUpperCase code) db with
  | none => (ApiResult.notFound "Room not found", db, [])
  | some room =>
    if validBody body then
      let maxPosition := getMaxPosition room.id db
      let isFirstSong := maxPosition == 0
      let inserted := addToQueue
        { roomId := room.id
          videoId := body.videoId
          title := body.title
          thumbnail := body.thumbnail
          channelTitle := orNull body.channelTitle
          duration := orNull body.duration
          position := maxPosition + 1
          status := if isFirstSong then Status.playing else Status.waiting } db
      let queueItem := inserted.1
      let db1 := inserted.2
      if isFirstSong then
        let db2 := updateRoom room.id
          { currentVideoId := some (some body.videoId)
            currentVideoTitle := some (some body.title)
            currentVideoThumbnail := some (some body.thumbnail)
            isPlaying := some true } db1
        let queue := getQueueByRoomId room.id db2
        (ApiResult.ok queueItem, db2,
          [Output.broadcast room.id
             (ServerMsg.currentSong (some body.videoId) (some body.title) (some body.thumbnail)),
           Output.broadcast room.id (ServerMsg.playbackState true),
           Output.broadcast room.id (ServerMsg.songAdded queueItem),
           Output.broadcast room.id (ServerMsg.queueUpdated queue)])
      else
        let queue := getQueueByRoomId room.id db1
        (ApiResult.ok queueItem, db1,
          [Output.broadcast room.id (ServerMsg.songAdded queueItem),
           Output.broadcast room.id (ServerMsg.queueUpdated queue)])
    else (ApiResult.badRequest "Missing required fields", db, [])

/-- DELETE /api/queue/:id — the bare route: unconditionally deletes the
row, answers success, broadcasts nothing and never touches the room. -/
def deleteQueueByIdRoute (id : Nat) (db : DB) : DB :=
  removeFromQueue id db

/-- DELETE /api/rooms/:code/queue/:itemId. -/
def deleteRoomQueueItemRoute (code : String) (itemId : Nat) (db : DB) :
    ApiResult Unit × DB × List Output :=
  match getRoomByCode (jsToUpperCase code) db with
  | none => (ApiResult.notFound "Room not found", db, [])
  | some room =>
    let queue := getQueueByRoomId room.id db
    match queue.find? (fun it => it.id == itemId) with
    | none => (ApiResult.notFound "Queue item not found", db, [])
    | some itemToRemove =>
      let wasPlaying := itemToRemove.status == Status.playing
      let db1 := removeFromQueue itemId db
      let step : DB × List Output :=
        if wasPlaying then
          match getNextInQueue room.id db1 with
          | some nextItem =>
            let db2 := updateQueueItem nextItem.id { status := some Status.playing } db1
            let db3 := updateRoom room.id
              { currentVideoId := some (some nextItem.videoId)
                currentVideoTitle := some (some nextItem.title)
                currentVideoThumbnail := some (some nextItem.thumbnail)
                isPlaying := some true } db2
            (db3,
              [Output.broadcast room.id
                 (ServerMsg.currentSong (some nextItem.videoId) (some nextItem.title)
                   (some nextItem.thumbnail)),
               Output.broadcast room.id (ServerMsg.playbackState true)])
          | none =>
            let db2 := updateRoom room.id
              { currentVideoId := some none
                currentVideoTitle := some none
                currentVideoThumbnail := some none
                isPlaying := some false } db1
            (db2,
              [Output.broadcast room.id (ServerMsg.currentSong none none none),
               Output.broadcast room.id (ServerMsg.playbackState false)])
        else (db1, [])
      let updatedQueue := getQueueByRoomId room.id step.1
      (ApiResult.ok (), step.1,
        step.2 ++
          [Output.broadcast room.id (ServerMsg.songRemoved itemId),
           Output.broadcast room.id (ServerMsg.queueUpdated updatedQueue)])

/-! ### Realtime handler -/

/-- Volatile server state: the store plus the roomConnections map from
room id to the set of joined sockets. -/
structure ServerState where
  db : DB
  roomConnections : List (Nat × List Nat)
deriving DecidableEq

/-- Add a socket to the connection set of a room, creating the entry when
absent; sets dedupe by identity. -/
def registryJoin (roomId : Nat) (ws : Nat) (reg : List (Nat × List Nat)) :
    List (Nat × List Nat) :=
  if reg.any (fun p => p.1 == roomId) then
    reg.map (fun p =>
      if p.1 == roomId then (p.1, if p.2.contains ws then p.2 else p.2 ++ [ws]) else p)
  else reg ++ [(roomId, [ws])]

/-- Result of one inbound frame: the per-connection currentRoomId
variable after handling, the server state after handling, and the sends
and broadcasts performed, in order. -/
structure HandlerResult where
  conn : Option Nat
  state : ServerState
  outputs : List Output
deriving DecidableEq

/-- The ws.on message callback: parse, then switch on the message type.
Unknown types fall through the switch silently; a parse failure is caught
and answered with an error frame to the sender only. -/
def wsHandle (ws : Nat) (currentRoomId : Option Nat) (raw : RawMessage)
    (srv : ServerState) : HandlerResult :=
  match raw with
  | RawMessage.malformed =>
    ⟨currentRoomId, srv, [Output.send ws (ServerMsg.error "Invalid message format")]⟩
  | RawMessage.parsed msg =>
    match msg with
    | ClientMsg.joinRoom roomCode =>
      match getRoomByCode roomCode srv.db with
      | none => ⟨currentRoomId, srv, [Output.send ws (ServerMsg.error "Room not found")]⟩
      | some room =>
        let reg := registryJoin room.id ws srv.roomConnections
        let queue := getQueueByRoomId room.id srv.db
        ⟨some room.id, { srv with roomConnections := reg },
          [Output.send ws (ServerMsg.roomState room queue)]⟩
    | ClientMsg.play =>
      match currentRoomId with
      | none => ⟨currentRoomId, srv, []⟩
      | some rid =>
        ⟨currentRoomId, { srv with db := updateRoom rid { isPlaying := some true } srv.db },
          [Output.broadcast rid (ServerMsg.playbackState true)]⟩
    | ClientMsg.pause =>
      match currentRoomId with
      | none => ⟨currentRoomId, srv, []⟩
      | some rid =>
        ⟨currentRoomId, { srv with db := updateRoom rid { isPlaying := some false } srv.db },
          [Output.broadcast rid (ServerMsg.playbackState false)]⟩
    | ClientMsg.skipSong =>
      match currentRoomId with
      | none => ⟨currentRoomId, srv, []⟩
      | some rid =>
        match getRoom rid srv.db with
        | none => ⟨currentRoomId, srv, []⟩
        | some _room =>
          let queue := getQueueByRoomId rid srv.db
          let currentItem := queue.find? (fun it => it.status == Status.playing)
          let db1 :=
            match currentItem with
            | some it => removeFromQueue it.id srv.db
            | none => srv.db
          match getNextInQueue rid db1 with
          | some nextItem =>
            let db2 := updateQueueItem nextItem.id { status := some Status.playing } db1
            let db3 := updateRoom rid
              { currentVideoId := some (some nextItem.videoId)
                currentVideoTitle := some (some nextItem.title)
                currentVideoThumbnail := some (some nextItem.thumbnail)
                isPlaying := some true } db2
            let updatedQueue := getQueueByRoomId rid db3
            ⟨currentRoomId, { srv with db := db3 },
              [Output.broadcast rid
                 (ServerMsg.currentSong (some nextItem.videoId) (some nextItem.title)
                   (some nextItem.thumbnail)),
               Output.broadcast rid (ServerMsg.queueUpdated updatedQueue),
               Output.broadcast rid (ServerMsg.playbackState true)]⟩
          | none =>
            let db2 := updateRoom rid
              { currentVideoId := some none
                currentVideoTitle := some none
                currentVideoThumbnail := some none
                isPlaying := some false } db1
            ⟨currentRoomId, { srv with db := db2 },
              [Output.broadcast rid (ServerMsg.currentSong none none none),
               Output.broadcast rid (ServerMsg.queueUpdated []),
               Output.broadcast rid (ServerMsg.playbackState false)]⟩
    | ClientMsg.other _t => ⟨currentRoomId, srv, []⟩

/-! ### Basic lemmas about the storage layer -/

theorem rooms_updateRoom (id : Nat) (u : RoomUpdates) (db : DB) :
    (updateRoom id u db).rooms =
      db.rooms.map (fun r => if r.id == id then applyRoomUpdates u r else r) := rfl

theorem queueItems_updateRoom (id : Nat) (u : RoomUpdates) (db : DB) :
    (updateRoom id u db).queueItems = db.queueItems := rfl

theorem id_applyRoomUpdates (u : RoomUpdates) (r : Room) :
    (applyRoomUpdates u r).id = r.id := rfl

theorem code_applyRoomUpdates (u : RoomUpdates) (r : Room) (h : u.code = none) :
    (applyRoomUpdates u r).code = r.code := by
  simp [applyRoomUpdates, h]

theorem id_applyQueueItemUpdates (u : QueueItemUpdates) (it : QueueItem) :
    (applyQueueItemUpdates u it).id = it.id := rfl

/-- A room of the store updated at a given id and carrying that id has the
updated isPlaying flag. -/
theorem isPlaying_updateRoom_self (rid : Nat) (b : Bool) (db : DB) :
    ∀ r ∈ (updateRoom rid { isPlaying := some b } db).rooms,
      r.id = rid → r.isPlaying = b := by
  intro r hr hid
  rw [rooms_updateRoom] at hr
  rcases List.mem_map.mp hr with ⟨r0, _hr0, rfl⟩
  by_cases h : r0.id == rid
  · simp [h, applyRoomUpdates]
  · simp [h] at hid ⊢
    exact absurd hid (by simpa using h)

theorem mem_getQueueByRoomId {it : QueueItem} {rid : Nat} {db : DB} :
    it ∈ getQueueByRoomId rid db ↔ it ∈ db.queueItems ∧ it.roomId = rid := by
  unfold getQueueByRoomId
  rw [List.mem_insertionSort, List.mem_filter]
  simp

theorem rooms_removeFromQueue (id : Nat) (db : DB) :
    (removeFromQueue id db).rooms = db.rooms := rfl

theorem queueItems_removeFromQueue (id : Nat) (db : DB) :
    (removeFromQueue id db).queueItems = db.queueItems.filter (fun it => !(it.id == id)) := rfl

/-- Two members of a room queue with the same id are the same row, when
ids in the store are distinct. -/
theorem eq_of_mem_queue_same_id {a b : QueueItem} {rid : Nat} {db : DB}
    (h : (db.queueItems.map QueueItem.id).Nodup)
    (ha : a ∈ getQueueByRoomId rid db) (hb : b ∈ getQueueByRoomId rid db)
    (hid : a.id = b.id) : a = b :=
  List.inj_on_of_nodup_map h (mem_getQueueByRoomId.mp ha).1
    (mem_getQueueByRoomId.mp hb).1 hid

theorem foldl_max_init_le (l : List Nat) (a : Nat) : a ≤ l.foldl Nat.max a := by
  induction l generalizing a with
  | nil => exact Nat.le_refl a
  | cons x xs ih =>
    exact Nat.le_trans (Nat.le_max_left a x) (ih (Nat.max a x))

theorem le_foldl_max_of_mem {l : List Nat} {x : Nat} (h : x ∈ l) (a : Nat) :
    x ≤ l.foldl Nat.max a := by
  induction l generalizing a with
  | nil => cases h
  | cons y ys ih =>
    rcases List.mem_cons.mp h with rfl | hy
    · exact Nat.le_trans (Nat.le_max_right a x) (foldl_max_init_le ys _)
    · exact ih hy _

/-- Every position in a room queue is bounded by getMaxPosition. -/
theorem position_le_getMaxPosition {it : QueueItem} {rid : Nat} {db : DB}
    (h : it ∈ db.queueItems) (hr : it.roomId = rid) :
    it.position ≤ getMaxPosition rid db := by
  have hmem : it ∈ getQueueByRoomId rid db := mem_getQueueByRoomId.mpr ⟨h, hr⟩
  have hne : (getQueueByRoomId rid db).isEmpty = false := by
    cases hq : getQueueByRoomId rid db with
    | nil => rw [hq] at hmem; cases hmem
    | cons a l => rfl
  unfold getMaxPosition
  simp only [hne, Bool.false_eq_true, if_false]
  exact le_foldl_max_of_mem (List.mem_map.mpr ⟨it, hmem, rfl⟩) 0

/-- With all stored positions at least 1 (every insert uses max + 1), a
max position of 0 characterizes an empty room queue. -/
theorem getMaxPosition_eq_zero_iff {rid : Nat} {db : DB}
    (hpos : ∀ it ∈ db.queueItems, it.roomId = rid → 1 ≤ it.position) :
    getMaxPosition rid db = 0 ↔ getQueueByRoomId rid db = [] := by
  constructor
  · intro h0
    by_contra hne
    obtain ⟨it, hit⟩ := List.exists_mem_of_ne_nil _ hne
    rcases mem_getQueueByRoomId.mp hit with ⟨hmem, hroom⟩
    have hle := position_le_getMaxPosition hmem hroom
    have h1 := hpos it hmem hroom
    omega
  · intro h
    unfold getMaxPosition
    simp [h]

/-- The row POST queue inserts under a found room and a valid body. -/
def insertedItem (room : Room) (body : AddBody) (db : DB) : QueueItem :=
  { id := db.nextId
    roomId := room.id
    videoId := body.videoId
    title := body.title
    thumbnail := body.thumbnail
    channelTitle := orNull body.channelTitle
    duration := orNull body.duration
    position := getMaxPosition room.id db + 1
    status := if getMaxPosition room.id db == 0 then Status.playing else Status.waiting }

/-- Room update performed when the inserted row is the first song. -/
def firstSongUpdates (body : AddBody) : RoomUpdates :=
  { currentVideoId := some (some body.videoId)
    currentVideoTitle := some (some body.title)
    currentVideoThumbnail := some (some body.thumbnail)
    isPlaying := some true }

/-- Store after the insert itself. -/
def dbAfterAdd (room : Room) (body : AddBody) (db : DB) : DB :=
  { db with
    queueItems := db.queueItems ++ [insertedItem room body db]
    nextId := db.nextId + 1 }

/-- Store after the insert plus the first-song room update. -/
def dbAfterFirstAdd (room : Room) (body : AddBody) (db : DB) : DB :=
  updateRoom room.id (firstSongUpdates body) (dbAfterAdd room body db)

/-- Unfolded result of POST queue in the first-song case. -/
theorem postQueueRoute_max0 (code : String) (body : AddBody) (db : DB) (room : Room)
    (h1 : getRoomByCode (jsToUpperCase code) db = some room)
    (h2 : validBody body = true)
    (h0 : getMaxPosition room.id db = 0) :
    postQueueRoute code body db =
      (ApiResult.ok (insertedItem room body db), dbAfterFirstAdd room body db,
        [Output.broadcast room.id
           (ServerMsg.currentSong (some body.videoId) (some body.title) (some body.thumbnail)),
         Output.broadcast room.id (ServerMsg.playbackState true),
         Output.broadcast room.id (ServerMsg.songAdded (insertedItem room body db)),
         Output.broadcast room.id
           (ServerMsg.queueUpdated (getQueueByRoomId room.id (dbAfterFirstAdd room body db)))]) := by
  unfold postQueueRoute
  rw [h1]
  simp only [h2, if_true]
  simp [insertedItem, dbAfterFirstAdd, dbAfterAdd, firstSongUpdates, addToQueue, h0]

/-- Unfolded result of POST queue when the room already has songs. -/
theorem postQueueRoute_maxpos (code : String) (body : AddBody) (db : DB) (room : Room)
    (h1 : getRoomByCode (jsToUpperCase code) db = some room)
    (h2 : validBody body = true)
    (h0 : getMaxPosition room.id db ≠ 0) :
    postQueueRoute code body db =
      (ApiResult.ok (insertedItem room body db), dbAfterAdd room body db,
        [Output.broadcast room.id (ServerMsg.songAdded (insertedItem room body db)),
         Output.broadcast room.id
           (ServerMsg.queueUpdated (getQueueByRoomId room.id (dbAfterAdd room body db)))]) := by
  have hb : (getMaxPosition room.id db == 0) = false := by
    simpa using h0
  unfold postQueueRoute
  rw [h1]
  simp only [h2, if_true]
  simp [insertedItem, dbAfterAdd, addToQueue, hb]

/-- Fields of a room row updated with explicit current-item values. -/
theorem currentFields_updateRoom_self (rid : Nat) (db : DB)
    (v t th : Option String) (b : Bool) :
    ∀ r ∈ (updateRoom rid
        { currentVideoId := some v
          currentVideoTitle := some t
          currentVideoThumbnail := some th
          isPlaying := some b } db).rooms,
      r.id = rid →
        r.currentVideoId = v ∧ r.currentVideoTitle = t ∧
        r.currentVideoThumbnail = th ∧ r.isPlaying = b := by
  intro r hr hid
  rw [rooms_updateRoom] at hr
  rcases List.mem_map.mp hr with ⟨r0, _hr0, rfl⟩
  by_cases h : r0.id == rid
  · simp [h, applyRoomUpdates]
  · simp [h] at hid ⊢
    exact absurd hid (by simpa using h)

/-- Room lookup by code commutes with a room update that does not touch
the code column. -/
theorem getRoomByCode_updateRoom (c : String) (id : Nat) (u : RoomUpdates) (db : DB)
    (h : u.code = none) :
    getRoomByCode c (updateRoom id u db) =
      (getRoomByCode c db).map
        (fun r => if r.id == id then applyRoomUpdates u r else r) := by
  unfold getRoomByCode updateRoom
  have hp : ((fun r : Room => r.code == c) ∘
      (fun r => if r.id == id then applyRoomUpdates u r else r)) =
      (fun r : Room => r.code == c) := by
    funext r
    by_cases hid : r.id = id
    · simp only [Function.comp_apply, hid, beq_self_eq_true, if_true,
        code_applyRoomUpdates u r h]
    · have hfalse : (r.id == id) = false := by simpa using hid
      simp only [Function.comp_apply, hfalse, Bool.false_eq_true, if_false]
  rw [List.find?_map, hp]

theorem getQueueByRoomId_congr {db db' : DB} (rid : Nat)
    (h : db.queueItems = db'.queueItems) :
    getQueueByRoomId rid db = getQueueByRoomId rid db' := by
  unfold getQueueByRoomId
  rw [h]

/-! ### Concrete example states used by the witnesses -/

def db0 : DB := ⟨[], [], 0⟩

/-- One room with code AAAAAA and id 0, empty queue. -/
def dbRoom : DB := (postRoomsCreate "AAAAAA" db0).2

def bodyA : AddBody := ⟨"v1", "Song A", "t1", none, none⟩

def bodyB : AddBody := ⟨"v2", "Song B", "t2", none, none⟩

/-- Room AAAAAA holding item 1 (playing, position 1) and item 2
(waiting, position 2). -/
def dbAB : DB := (postQueueRoute "AAAAAA" bodyB (postQueueRoute "AAAAAA" bodyA dbRoom).2.1).2.1

/-! ### Claim C3 -/

/-- C3: adding to an existing room with a valid body (positions of stored
rows are at least 1, as every insert assigns max + 1): when the room
queue is empty beforehand, the row is inserted playing, the room mirrors
it with isPlaying true, and current_song and playback_state precede the
usual song_added and queue_updated; otherwise the row is inserted waiting,
no room row changes, and only song_added and queue_updated go out. -/
theorem add_to_queue_first_song_autoplay (code : String) (body : AddBody) (db : DB)
    (room : Room)
    (h1 : getRoomByCode (jsToUpperCase code) db = some room)
    (h2 : validBody body = true)
    (hpos : ∀ it ∈ db.queueItems, it.roomId = room.id → 1 ≤ it.position) :
    ∃ item db' outs,
      postQueueRoute code body db = (ApiResult.ok item, db', outs) ∧
      (getQueueByRoomId room.id db = [] →
        item.status = Status.playing ∧
        (∀ r ∈ db'.rooms, r.id = room.id →
          r.currentVideoId = some body.videoId ∧
          r.currentVideoTitle = some body.title ∧
          r.currentVideoThumbnail = some body.thumbnail ∧
          r.isPlaying = true) ∧
        outs =
          [Output.broadcast room.id
             (ServerMsg.currentSong (some body.videoId) (some body.title)
               (some body.thumbnail)),
           Output.broadcast room.id (ServerMsg.playbackState true),
           Output.broadcast room.id (ServerMsg.songAdded item),
           Output.broadcast room.id
             (ServerMsg.queueUpdated (getQueueByRoomId room.id db'))]) ∧
      (getQueueByRoomId room.id db ≠ [] →
        item.status = Status.waiting ∧
        db'.rooms = db.rooms ∧
        outs =
          [Output.broadcast room.id (ServerMsg.songAdded item),
           Output.broadcast room.id
             (ServerMsg.queueUpdated (getQueueByRoomId room.id db'))]) := by
  by_cases h0 : getMaxPosition room.id db = 0
  · refine ⟨insertedItem room body db, dbAfterFirstAdd room body db, _,
      postQueueRoute_max0 code body db room h1 h2 h0, ?_, ?_⟩
    · intro _
      refine ⟨by simp [insertedItem, h0], ?_, rfl⟩
      exact currentFields_updateRoom_self room.id (dbAfterAdd room body db)
        (some body.videoId) (some body.title) (some body.thumbnail) true
    · intro hne
      exact absurd ((getMaxPosition_eq_zero_iff hpos).mp h0) hne
  · have hb : (getMaxPosition room.id db == 0) = false := by simpa using h0
    refine ⟨insertedItem room body db, dbAfterAdd room body db, _,
      postQueueRoute_maxpos code body db room h1 h2 h0, ?_, ?_⟩
    · intro hemp
      exact absurd ((getMaxPosition_eq_zero_iff hpos).mpr hemp) h0
    · intro _
      exact ⟨by simp [insertedItem, hb], rfl, rfl⟩

/-! ### Claim C6 -/

/-- C6 (amended): every successful add assigns position max(existing, 0)
plus 1, strictly above the position of every row present in the room at
that moment. Strict increase across the whole insertion history of a room
fails once a removal lowers the max; see the counterexample. -/
theorem add_position_exceeds_existing (code : String) (body : AddBody) (db : DB)
    (room : Room)
    (h1 : getRoomByCode (jsToUpperCase code) db = some room)
    (h2 : validBody body = true) :
    ∃ item db' outs,
      postQueueRoute code body db = (ApiResult.ok item, db', outs) ∧
      item.position = getMaxPosition room.id db + 1 ∧
      ∀ it ∈ db.queueItems, it.roomId = room.id → it.position < item.position := by
  by_cases h0 : getMaxPosition room.id db = 0
  · refine ⟨insertedItem room body db, _, _,
      postQueueRoute_max0 code body db room h1 h2 h0, rfl, ?_⟩
    intro it hmem hrid
    have hle := position_le_getMaxPosition hmem hrid
    simp only [insertedItem]
    omega
  · refine ⟨insertedItem room body db, _, _,
      postQueueRoute_maxpos code body db room h1 h2 h0, rfl, ?_⟩
    intro it hmem hrid
    have hle := position_le_getMaxPosition hmem hrid
    simp only [insertedItem]
    omega

def bodyC : AddBody := ⟨"v3", "Song C", "t3", none, none⟩

/-- Store after removing the waiting second song from the two-song room. -/
def dbABminusB : DB := (deleteRoomQueueItemRoute "AAAAAA" 2 dbAB).2.1

/-- C6 (counterexample): in room AAAAAA, the second insert is assigned
position 2; after that item is removed, the third insert is assigned
position 2 again, so the positions handed to successively inserted items
of the room are not strictly increasing in insertion order. -/
theorem positions_can_repeat_after_remove :
    ∃ secondItem thirdItem : QueueItem,
      (postQueueRoute "AAAAAA" bodyB (postQueueRoute "AAAAAA" bodyA dbRoom).2.1).1 =
        ApiResult.ok secondItem ∧
      (postQueueRoute "AAAAAA" bodyC dbABminusB).1 = ApiResult.ok thirdItem ∧
      secondItem.position = 2 ∧ thirdItem.position = 2 ∧
      ¬ secondItem.position < thirdItem.position := by
  refine ⟨⟨2, 0, "v2", "Song B", "t2", none, none, 2, Status.waiting⟩,
    ⟨3, 0, "v3", "Song C", "t3", none, none, 2, Status.waiting⟩,
    by decide, by decide, rfl, rfl, by decide⟩

/-- Unfolded result of the scoped DELETE when the found item is not the
playing one. -/
theorem deleteRoute_found_waiting (code : String) (itemId : Nat) (db : DB)
    (room : Room) (item : QueueItem)
    (h1 : getRoomByCode (jsToUpperCase code) db = some room)
    (h2 : (getQueueByRoomId room.id db).find? (fun it => it.id == itemId) = some item)
    (hwp : (item.status == Status.playing) = false) :
    deleteRoomQueueItemRoute code itemId db =
      (ApiResult.ok (), removeFromQueue itemId db,
        [Output.broadcast room.id (ServerMsg.songRemoved itemId),
         Output.broadcast room.id
           (ServerMsg.queueUpdated (getQueueByRoomId room.id (removeFromQueue itemId db)))]) := by
  unfold deleteRoomQueueItemRoute
  rw [h1]
  simp [h2, hwp]

/-- Unfolded result of the scoped DELETE when the found item is playing
and no waiting item remains after the removal. -/
theorem deleteRoute_found_playing_none (code : String) (itemId : Nat) (db : DB)
    (room : Room) (item : QueueItem)
    (h1 : getRoomByCode (jsToUpperCase code) db = some room)
    (h2 : (getQueueByRoomId room.id db).find? (fun it => it.id == itemId) = some item)
    (hwp : (item.status == Status.playing) = true)
    (hnext : getNextInQueue room.id (removeFromQueue itemId db) = none) :
    deleteRoomQueueItemRoute code itemId db =
      (ApiResult.ok (),
       updateRoom room.id
         { currentVideoId := some none
           currentVideoTitle := some none
           currentVideoThumbnail := some none
           isPlaying := some false } (removeFromQueue itemId db),
       [Output.broadcast room.id (ServerMsg.currentSong none none none),
        Output.broadcast room.id (ServerMsg.playbackState false),
        Output.broadcast room.id (ServerMsg.songRemoved itemId),
        Output.broadcast room.id
          (ServerMsg.queueUpdated (getQueueByRoomId room.id
            (updateRoom room.id
              { currentVideoId := some none
                currentVideoTitle := some none
                currentVideoThumbnail := some none
                isPlaying := some false } (removeFromQueue itemId db))))]) := by
  unfold deleteRoomQueueItemRoute
  rw [h1]
  simp [h2, hwp, hnext]

/-- Unfolded result of the scoped DELETE when the found item is playing
and a next waiting item exists after the removal. -/
theorem deleteRoute_found_playing_some (code : String) (itemId : Nat) (db : DB)
    (room : Room) (item nextItem : QueueItem)
    (h1 : getRoomByCode (jsToUpperCase code) db = some room)
    (h2 : (getQueueByRoomId room.id db).find? (fun it => it.id == itemId) = some item)
    (hwp : (item.status == Status.playing) = true)
    (hnext : getNextInQueue room.id (removeFromQueue itemId db) = some nextItem) :
    deleteRoomQueueItemRoute code itemId db =
      (ApiResult.ok (),
       updateRoom room.id
         { currentVideoId := some (some nextItem.videoId)
           currentVideoTitle := some (some nextItem.title)
           currentVideoThumbnail := some (some nextItem.thumbnail)
           isPlaying := some true }
         (updateQueueItem nextItem.id { status := some Status.playing }
           (removeFromQueue itemId db)),
       [Output.broadcast room.id
          (ServerMsg.currentSong (some nextItem.videoId) (some nextItem.title)
            (some nextItem.thumbnail)),
        Output.broadcast room.id (ServerMsg.playbackState true),
        Output.broadcast room.id (ServerMsg.songRemoved itemId),
        Output.broadcast room.id
          (ServerMsg.queueUpdated (getQueueByRoomId room.id
            (updateRoom room.id
              { currentVideoId := some (some nextItem.videoId)
                currentVideoTitle := some (some nextItem.title)
                currentVideoThumbnail := some (some nextItem.thumbnail)
                isPlaying := some true }
              (updateQueueItem nextItem.id { status := some Status.playing }
                (removeFromQueue itemId db)))))]) := by
  unfold deleteRoomQueueItemRoute
  rw [h1]
  simp [h2, hwp, hnext]

/-! ### Claim C7 -/

/-- C7: adding an item and then removing that same item by its id returns
the queue store, and hence the room queue with its ordering and the
positions of all remaining items, to exactly its prior value. Hypotheses:
the room resolves, the body is valid, stored ids are below the fresh-id
source, stored positions are at least 1 (all invariants of reachable
stores). -/
theorem add_then_remove_roundtrip (code : String) (body : AddBody) (db : DB)
    (room : Room)
    (h1 : getRoomByCode (jsToUpperCase code) db = some room)
    (h2 : validBody body = true)
    (h3 : ∀ it ∈ db.queueItems, it.id < db.nextId)
    (hpos : ∀ it ∈ db.queueItems, it.roomId = room.id → 1 ≤ it.position) :
    ∃ item db1 outs1 res2 db2 outs2,
      postQueueRoute code body db = (ApiResult.ok item, db1, outs1) ∧
      deleteRoomQueueItemRoute code item.id db1 = (res2, db2, outs2) ∧
      db2.queueItems = db.queueItems ∧
      getQueueByRoomId room.id db2 = getQueueByRoomId room.id db := by
  have hfilterApp : (db.queueItems ++ [insertedItem room body db]).filter
      (fun it => !(it.id == db.nextId)) = db.queueItems := by
    rw [List.filter_append]
    have hl : db.queueItems.filter (fun it => !(it.id == db.nextId)) = db.queueItems := by
      rw [List.filter_eq_self]
      intro a ha
      have hlt := h3 a ha
      simp only [Bool.not_eq_eq_eq_not, Bool.not_true, beq_eq_false_iff_ne, ne_eq]
      omega
    have hr1 : [insertedItem room body db].filter (fun it => !(it.id == db.nextId)) = [] := by
      simp [insertedItem]
    rw [hl, hr1, List.append_nil]
  have hfindGen : ∀ dbx : DB,
      dbx.queueItems = db.queueItems ++ [insertedItem room body db] →
      (getQueueByRoomId room.id dbx).find?
          (fun it => it.id == (insertedItem room body db).id) =
        some (insertedItem room body db) := by
    intro dbx hdx
    have hmem : insertedItem room body db ∈ getQueueByRoomId room.id dbx := by
      refine mem_getQueueByRoomId.mpr ⟨?_, rfl⟩
      rw [hdx]
      exact List.mem_append_right _ (List.mem_singleton_self _)
    have hsome : ((getQueueByRoomId room.id dbx).find?
        (fun it => it.id == (insertedItem room body db).id)).isSome :=
      List.find?_isSome.mpr ⟨_, hmem, by simp⟩
    obtain ⟨x, hx⟩ := Option.isSome_iff_exists.mp hsome
    have hxmem := List.mem_of_find?_eq_some hx
    have hxid : x.id = (insertedItem room body db).id := by
      simpa using List.find?_some hx
    rcases mem_getQueueByRoomId.mp hxmem with ⟨hxin, _⟩
    rw [hdx] at hxin
    rcases List.mem_append.mp hxin with hOld | hNew
    · exact absurd hxid (Nat.ne_of_lt (h3 x hOld))
    · rw [hx, List.mem_singleton.mp hNew]
  by_cases h0 : getMaxPosition room.id db = 0
  · -- first-song case: the inserted row is playing, the removal advances
    -- to the empty-queue branch and only room fields change
    have hrooms1 : getRoomByCode (jsToUpperCase code) (dbAfterFirstAdd room body db) =
        some (applyRoomUpdates (firstSongUpdates body) room) := by
      unfold dbAfterFirstAdd
      rw [getRoomByCode_updateRoom _ _ _ _ rfl]
      have hbase : getRoomByCode (jsToUpperCase code) (dbAfterAdd room body db) =
          getRoomByCode (jsToUpperCase code) db := rfl
      rw [hbase, h1]
      simp
    have hfind := hfindGen (dbAfterFirstAdd room body db) rfl
    have hwp : ((insertedItem room body db).status == Status.playing) = true := by
      simp [insertedItem, h0]
    have hremItems : (removeFromQueue (insertedItem room body db).id
        (dbAfterFirstAdd room body db)).queueItems = db.queueItems := by
      rw [queueItems_removeFromQueue]
      exact hfilterApp
    have hnext : getNextInQueue room.id (removeFromQueue (insertedItem room body db).id
        (dbAfterFirstAdd room body db)) = none := by
      unfold getNextInQueue
      rw [getQueueByRoomId_congr room.id hremItems,
        (getMaxPosition_eq_zero_iff hpos).mp h0]
      rfl
    have hr2 := deleteRoute_found_playing_none code (insertedItem room body db).id
      (dbAfterFirstAdd room body db) (applyRoomUpdates (firstSongUpdates body) room)
      (insertedItem room body db) hrooms1 hfind hwp hnext
    have hitems : (updateRoom (applyRoomUpdates (firstSongUpdates body) room).id
        { currentVideoId := some none
          currentVideoTitle := some none
          currentVideoThumbnail := some none
          isPlaying := some false }
        (removeFromQueue (insertedItem room body db).id
          (dbAfterFirstAdd room body db))).queueItems = db.queueItems := by
      rw [queueItems_updateRoom]
      exact hremItems
    exact ⟨insertedItem room body db, dbAfterFirstAdd room body db, _,
      ApiResult.ok (), _, _,
      postQueueRoute_max0 code body db room h1 h2 h0, hr2, hitems,
      getQueueByRoomId_congr room.id hitems⟩
  · -- the room already had songs: the row is inserted waiting and the
    -- removal is a plain delete
    have hrooms1 : getRoomByCode (jsToUpperCase code) (dbAfterAdd room body db) =
        some room := h1
    have hfind := hfindGen (dbAfterAdd room body db) rfl
    have hb : (getMaxPosition room.id db == 0) = false := by simpa using h0
    have hwp : ((insertedItem room body db).status == Status.playing) = false := by
      simp [insertedItem, hb]
    have hremItems : (removeFromQueue (insertedItem room body db).id
        (dbAfterAdd room body db)).queueItems = db.queueItems := by
      rw [queueItems_removeFromQueue]
      exact hfilterApp
    have hr2 := deleteRoute_found_waiting code (insertedItem room body db).id
      (dbAfterAdd room body db) room (insertedItem room body db) hrooms1 hfind hwp
    exact ⟨insertedItem room body db, dbAfterAdd room body db, _,
      ApiResult.ok (), _, _,
      postQueueRoute_maxpos code body db room h1 h2 h0, hr2, hremItems,
      getQueueByRoomId_congr room.id hremItems⟩

theorem add_to_queue_first_song_autoplay_witness :
    ∃ item db' outs,
      postQueueRoute "AAAAAA" bodyA dbRoom = (ApiResult.ok item, db', outs) ∧
      (getQueueByRoomId 0 dbRoom = [] →
        item.status = Status.playing ∧
        (∀ r ∈ db'.rooms, r.id = 0 →
          r.currentVideoId = some bodyA.videoId ∧
          r.currentVideoTitle = some bodyA.title ∧
          r.currentVideoThumbnail = some bodyA.thumbnail ∧
          r.isPlaying = true) ∧
        outs =
          [Output.broadcast 0
             (ServerMsg.currentSong (some bodyA.videoId) (some bodyA.title)
               (some bodyA.thumbnail)),
           Output.broadcast 0 (ServerMsg.playbackState true),
           Output.broadcast 0 (ServerMsg.songAdded item),
           Output.broadcast 0
             (ServerMsg.queueUpdated (getQueueByRoomId 0 db'))]) ∧
      (getQueueByRoomId 0 dbRoom ≠ [] →
        item.status = Status.waiting ∧
        db'.rooms = dbRoom.rooms ∧
        outs =
          [Output.broadcast 0 (ServerMsg.songAdded item),
           Output.broadcast 0
             (ServerMsg.queueUpdated (getQueueByRoomId 0 db'))]) :=
  add_to_queue_first_song_autoplay "AAAAAA" bodyA dbRoom
    ⟨0, "AAAAAA", none, none, none, false⟩ (by decide) (by decide) (by decide)

theorem add_position_exceeds_existing_witness :
    ∃ item db' outs,
      postQueueRoute "AAAAAA" bodyC dbAB = (ApiResult.ok item, db', outs) ∧
      item.position = getMaxPosition 0 dbAB + 1 ∧
      ∀ it ∈ dbAB.queueItems, it.roomId = 0 → it.position < item.position :=
  add_position_exceeds_existing "AAAAAA" bodyC dbAB
    ⟨0, "AAAAAA", some "v1", some "Song A", some "t1", true⟩ (by decide) (by decide)

theorem add_then_remove_roundtrip_witness :
    ∃ item db1 outs1 res2 db2 outs2,
      postQueueRoute "AAAAAA" bodyC dbAB = (ApiResult.ok item, db1, outs1) ∧
      deleteRoomQueueItemRoute "AAAAAA" item.id db1 = (res2, db2, outs2) ∧
      db2.queueItems = dbAB.queueItems ∧
      getQueueByRoomId 0 db2 = getQueueByRoomId 0 dbAB :=
  add_then_remove_roundtrip "AAAAAA" bodyC dbAB
    ⟨0, "AAAAAA", some "v1", some "Song A", some "t1", true⟩
    (by decide) (by decide) (by decide) (by decide)

/-! ### Claim C5 -/

/-- C5: removing a queue item by room code and item id, when no item with
that id belongs to that room, answers the not-found signal, changes
nothing and broadcasts nothing. -/
theorem remove_absent_item_not_found (code : String) (itemId : Nat) (db : DB) (room : Room)
    (h1 : getRoomByCode (jsToUpperCase code) db = some room)
    (h2 : ∀ it ∈ db.queueItems, it.roomId = room.id → it.id ≠ itemId) :
    deleteRoomQueueItemRoute code itemId db =
      (ApiResult.notFound "Queue item not found", db, []) := by
  have hfind : (getQueueByRoomId room.id db).find? (fun it => it.id == itemId) = none := by
    rw [List.find?_eq_none]
    intro x hx
    rcases mem_getQueueByRoomId.mp hx with ⟨hmem, hroom⟩
    simpa using h2 x hmem hroom
  unfold deleteRoomQueueItemRoute
  rw [h1]
  simp [hfind]

/-! ### Claim C8 -/

/-- C8: removing a waiting (non-playing) item shrinks the room queue by
exactly that item, leaves every room row (hence the current-item fields
and isPlaying) unchanged, and the only messages are song_removed and
queue_updated, in that order; no current_song and no playback_state. -/
theorem remove_waiting_item_frame (code : String) (itemId : Nat) (db : DB)
    (room : Room) (item : QueueItem)
    (h1 : getRoomByCode (jsToUpperCase code) db = some room)
    (h2 : (getQueueByRoomId room.id db).find? (fun it => it.id == itemId) = some item)
    (h3 : item.status = Status.waiting)
    (h4 : (db.queueItems.map QueueItem.id).Nodup) :
    ∃ db', deleteRoomQueueItemRoute code itemId db =
        (ApiResult.ok (), db',
          [Output.broadcast room.id (ServerMsg.songRemoved itemId),
           Output.broadcast room.id (ServerMsg.queueUpdated (getQueueByRoomId room.id db'))]) ∧
      db'.rooms = db.rooms ∧
      item ∈ getQueueByRoomId room.id db ∧
      (∀ it, it ∈ getQueueByRoomId room.id db' ↔
        it ∈ getQueueByRoomId room.id db ∧ it ≠ item) := by
  have hidEq : item.id = itemId := by simpa using List.find?_some h2
  have hitem : item ∈ getQueueByRoomId room.id db := List.mem_of_find?_eq_some h2
  have hwp : (item.status == Status.playing) = false := by
    simp [h3]
  refine ⟨removeFromQueue itemId db, ?_, rfl, hitem, ?_⟩
  · unfold deleteRoomQueueItemRoute
    rw [h1]
    simp [h2, hwp]
  · intro it
    constructor
    · intro hmem
      rcases mem_getQueueByRoomId.mp hmem with ⟨hin, hroom⟩
      rw [queueItems_removeFromQueue] at hin
      rcases List.mem_filter.mp hin with ⟨hin0, hne⟩
      refine ⟨mem_getQueueByRoomId.mpr ⟨hin0, hroom⟩, ?_⟩
      intro hcontra
      subst hcontra
      simp [hidEq] at hne
    · intro hpair
      rcases hpair with ⟨hmem, hne⟩
      rcases mem_getQueueByRoomId.mp hmem with ⟨hin, hroom⟩
      refine mem_getQueueByRoomId.mpr ⟨?_, hroom⟩
      rw [queueItems_removeFromQueue]
      refine List.mem_filter.mpr ⟨hin, ?_⟩
      simp only [Bool.not_eq_eq_eq_not, Bool.not_true, beq_eq_false_iff_ne, ne_eq]
      intro hiditem
      exact hne (eq_of_mem_queue_same_id h4 hmem hitem (hiditem.trans hidEq.symm))

theorem remove_absent_item_not_found_witness :
    deleteRoomQueueItemRoute "AAAAAA" 5 dbRoom =
      (ApiResult.notFound "Queue item not found", dbRoom, []) :=
  remove_absent_item_not_found "AAAAAA" 5 dbRoom
    { id := 0
      code := "AAAAAA"
      currentVideoId := none
      currentVideoTitle := none
      currentVideoThumbnail := none
      isPlaying := false }
    (by decide) (by decide)

theorem remove_waiting_item_frame_witness :
    ∃ db', deleteRoomQueueItemRoute "AAAAAA" 2 dbAB =
        (ApiResult.ok (), db',
          [Output.broadcast 0 (ServerMsg.songRemoved 2),
           Output.broadcast 0 (ServerMsg.queueUpdated (getQueueByRoomId 0 db'))]) ∧
      db'.rooms = dbAB.rooms ∧
      { id := 2
        roomId := 0
        videoId := "v2"
        title := "Song B"
        thumbnail := "t2"
        channelTitle := none
        duration := none
        position := 2
        status := Status.waiting } ∈ getQueueByRoomId 0 dbAB ∧
      (∀ it, it ∈ getQueueByRoomId 0 db' ↔
        it ∈ getQueueByRoomId 0 dbAB ∧ it ≠
          { id := 2
            roomId := 0
            videoId := "v2"
            title := "Song B"
            thumbnail := "t2"
            channelTitle := none
            duration := none
            position := 2
            status := Status.waiting }) :=
  remove_waiting_item_frame "AAAAAA" 2 dbAB
    { id := 0
      code := "AAAAAA"
      currentVideoId := some "v1"
      currentVideoTitle := some "Song A"
      currentVideoThumbnail := some "t1"
      isPlaying := true }
    { id := 2
      roomId := 0
      videoId := "v2"
      title := "Song B"
      thumbnail := "t2"
      channelTitle := none
      duration := none
      position := 2
      status := Status.waiting }
    (by decide) (by decide) (by decide) (by decide)

/-! ### Waiting items and the next-in-queue selection -/

/-- Waiting rows of a room, in store order (observable the skip claim
speaks about). -/
def waitingItems (rid : Nat) (db : DB) : List QueueItem :=
  db.queueItems.filter (fun it => it.roomId == rid && it.status == Status.waiting)

theorem mem_waitingItems {it : QueueItem} {rid : Nat} {db : DB} :
    it ∈ waitingItems rid db ↔
      it ∈ db.queueItems ∧ it.roomId = rid ∧ it.status = Status.waiting := by
  unfold waitingItems
  rw [List.mem_filter]
  simp [and_assoc]

theorem getNextInQueue_none_iff (rid : Nat) (db : DB) :
    getNextInQueue rid db = none ↔ waitingItems rid db = [] := by
  unfold getNextInQueue waitingItems
  rw [List.head?_eq_none_iff, List.filter_eq_nil_iff, List.filter_eq_nil_iff]
  constructor
  · intro h a ha
    by_cases hroom : a.roomId = rid
    · by_cases hwait : a.status = Status.waiting
      · have hmem : a ∈ getQueueByRoomId rid db := mem_getQueueByRoomId.mpr ⟨ha, hroom⟩
        have := h a hmem
        simp [hwait] at this
      · simp [hwait]
    · simp [hroom]
  · intro h a ha
    rcases mem_getQueueByRoomId.mp ha with ⟨hin, hroom⟩
    have := h a hin
    simp [hroom] at this
    simp [this]

/-- The row getNextInQueue selects is a waiting row of the room with
minimal position among them. -/
theorem getNextInQueue_some_spec (rid : Nat) (db : DB) (n : QueueItem)
    (h : getNextInQueue rid db = some n) :
    n ∈ waitingItems rid db ∧
      ∀ m ∈ waitingItems rid db, n.position ≤ m.position := by
  unfold getNextInQueue at h
  have hs : List.Sorted posLe
      ((getQueueByRoomId rid db).filter (fun it => it.status == Status.waiting)) :=
    (List.sorted_insertionSort posLe _).filter _
  have hmemf : n ∈ (getQueueByRoomId rid db).filter
      (fun it => it.status == Status.waiting) :=
    List.mem_of_mem_head? (by simp [h])
  constructor
  · rcases List.mem_filter.mp hmemf with ⟨hq, hw⟩
    rcases mem_getQueueByRoomId.mp hq with ⟨hin, hroom⟩
    exact mem_waitingItems.mpr ⟨hin, hroom, by simpa using hw⟩
  · intro m hm
    rcases mem_waitingItems.mp hm with ⟨hin, hroom, hwait⟩
    have hmf : m ∈ (getQueueByRoomId rid db).filter
        (fun it => it.status == Status.waiting) :=
      List.mem_filter.mpr ⟨mem_getQueueByRoomId.mpr ⟨hin, hroom⟩, by simp [hwait]⟩
    rcases hq : (getQueueByRoomId rid db).filter
        (fun it => it.status == Status.waiting) with _ | ⟨a, t⟩
    · rw [hq] at hmemf
      cases hmemf
    · rw [hq] at h hs hmf
      have hn : a = n := by
        simpa using h
      subst hn
      rcases List.mem_cons.mp hmf with rfl | hmt
      · exact Nat.le_refl _
      · exact List.rel_of_sorted_cons hs m hmt

/-- Removing the id of a playing row leaves the waiting rows of every
room untouched (ids are unique, and a playing row is not waiting). -/
theorem waitingItems_remove_playing {db : DB} {rid : Nat} {it : QueueItem}
    (hNodup : (db.queueItems.map QueueItem.id).Nodup)
    (hin : it ∈ db.queueItems) (hps : it.status = Status.playing) :
    waitingItems rid (removeFromQueue it.id db) = waitingItems rid db := by
  unfold waitingItems
  rw [queueItems_removeFromQueue, List.filter_filter]
  apply List.filter_congr
  intro a ha
  by_cases hid : a.id = it.id
  · have : a = it := List.inj_on_of_nodup_map hNodup ha hin hid
    subst this
    simp [hps]
  · simp [hid]

theorem queueItems_updateQueueItem (id : Nat) (u : QueueItemUpdates) (db : DB) :
    (updateQueueItem id u db).queueItems =
      db.queueItems.map (fun it => if it.id == id then applyQueueItemUpdates u it else it) := rfl

/-- Any row carrying the updated id has the updated status. -/
theorem status_updateQueueItem_self (iid : Nat) (db : DB) :
    ∀ it' ∈ (updateQueueItem iid { status := some Status.playing } db).queueItems,
      it'.id = iid → it'.status = Status.playing := by
  intro it' h hid
  rw [queueItems_updateQueueItem] at h
  rcases List.mem_map.mp h with ⟨x, _hx, rfl⟩
  by_cases hxe : x.id == iid
  · simp [hxe, applyQueueItemUpdates]
  · simp [hxe] at hid ⊢
    exact absurd hid (by simpa using hxe)

/-- Ids survive a queue-item update. -/
theorem ids_updateQueueItem (iid : Nat) (u : QueueItemUpdates) (db : DB) :
    ∀ it' ∈ (updateQueueItem iid u db).queueItems,
      ∃ x ∈ db.queueItems, it'.id = x.id := by
  intro it' h
  rw [queueItems_updateQueueItem] at h
  rcases List.mem_map.mp h with ⟨x, hx, rfl⟩
  refine ⟨x, hx, ?_⟩
  by_cases hxe : x.id == iid <;> simp [hxe, id_applyQueueItemUpdates]

/-! ### Claim C1 -/

/-- C1: skip with a joined room removes the playing row if one exists,
then promotes the waiting row of minimal position when present — marking
it playing, mirroring it into the room row with isPlaying true, and
broadcasting current_song, queue_updated, playback_state — or, with no
waiting row, nulls the room current-item fields, sets isPlaying false and
broadcasts the same three messages with null and empty payloads.
Hypotheses: the room resolves and the store satisfies the reachable-state
invariants (unique ids, at most one playing row of the room). -/
theorem skip_advances_queue (ws rid : Nat) (srv : ServerState) (room : Room)
    (hroom : getRoom rid srv.db = some room)
    (hOne : ∀ a ∈ srv.db.queueItems, ∀ b ∈ srv.db.queueItems,
      a.roomId = rid → a.status = Status.playing →
      b.roomId = rid → b.status = Status.playing → a = b)
    (hNodup : (srv.db.queueItems.map QueueItem.id).Nodup) :
    (∀ itP ∈ srv.db.queueItems, itP.roomId = rid → itP.status = Status.playing →
      ∀ it' ∈ (wsHandle ws (some rid) (RawMessage.parsed ClientMsg.skipSong) srv).state.db.queueItems,
        it'.id ≠ itP.id) ∧
    (waitingItems rid srv.db ≠ [] →
      ∃ n, n ∈ waitingItems rid srv.db ∧
        (∀ m ∈ waitingItems rid srv.db, n.position ≤ m.position) ∧
        (∀ it' ∈ (wsHandle ws (some rid) (RawMessage.parsed ClientMsg.skipSong) srv).state.db.queueItems,
          it'.id = n.id → it'.status = Status.playing) ∧
        (∀ r ∈ (wsHandle ws (some rid) (RawMessage.parsed ClientMsg.skipSong) srv).state.db.rooms,
          r.id = rid →
            r.currentVideoId = some n.videoId ∧
            r.currentVideoTitle = some n.title ∧
            r.currentVideoThumbnail = some n.thumbnail ∧
            r.isPlaying = true) ∧
        (wsHandle ws (some rid) (RawMessage.parsed ClientMsg.skipSong) srv).outputs =
          [Output.broadcast rid
             (ServerMsg.currentSong (some n.videoId) (some n.title) (some n.thumbnail)),
           Output.broadcast rid (ServerMsg.queueUpdated
             (getQueueByRoomId rid
               (wsHandle ws (some rid) (RawMessage.parsed ClientMsg.skipSong) srv).state.db)),
           Output.broadcast rid (ServerMsg.playbackState true)]) ∧
    (waitingItems rid srv.db = [] →
      (∀ r ∈ (wsHandle ws (some rid) (RawMessage.parsed ClientMsg.skipSong) srv).state.db.rooms,
        r.id = rid →
          r.currentVideoId = none ∧
          r.currentVideoTitle = none ∧
          r.currentVideoThumbnail = none ∧
          r.isPlaying = false) ∧
      (wsHandle ws (some rid) (RawMessage.parsed ClientMsg.skipSong) srv).outputs =
        [Output.broadcast rid (ServerMsg.currentSong none none none),
         Output.broadcast rid (ServerMsg.queueUpdated []),
         Output.broadcast rid (ServerMsg.playbackState false)]) := by
  cases hcur : (getQueueByRoomId rid srv.db).find? (fun it => it.status == Status.playing) with
  | none =>
    have hnoplay : ∀ itP ∈ srv.db.queueItems, itP.roomId = rid →
        itP.status ≠ Status.playing := by
      intro itP hin hr hps
      have hmem : itP ∈ getQueueByRoomId rid srv.db := mem_getQueueByRoomId.mpr ⟨hin, hr⟩
      have := List.find?_eq_none.mp hcur itP hmem
      simp [hps] at this
    cases hnext : getNextInQueue rid srv.db with
    | some n =>
      have hres : wsHandle ws (some rid) (RawMessage.parsed ClientMsg.skipSong) srv =
          ⟨some rid,
           ⟨updateRoom rid
              { currentVideoId := some (some n.videoId)
                currentVideoTitle := some (some n.title)
                currentVideoThumbnail := some (some n.thumbnail)
                isPlaying := some true }
              (updateQueueItem n.id { status := some Status.playing } srv.db),
            srv.roomConnections⟩,
           [Output.broadcast rid
              (ServerMsg.currentSong (some n.videoId) (some n.title) (some n.thumbnail)),
            Output.broadcast rid (ServerMsg.queueUpdated
              (getQueueByRoomId rid (updateRoom rid
                { currentVideoId := some (some n.videoId)
                  currentVideoTitle := some (some n.title)
                  currentVideoThumbnail := some (some n.thumbnail)
                  isPlaying := some true }
                (updateQueueItem n.id { status := some Status.playing } srv.db)))),
            Output.broadcast rid (ServerMsg.playbackState true)]⟩ := by
        simp only [wsHandle, hroom, hcur, hnext]
      obtain ⟨hnmem, hnmin⟩ := getNextInQueue_some_spec rid srv.db n hnext
      rw [hres]
      refine ⟨?_, ?_, ?_⟩
      · intro itP hin hr hps
        exact absurd hps (hnoplay itP hin hr)
      · intro _
        refine ⟨n, hnmem, hnmin, ?_, ?_, rfl⟩
        · intro it' h hid
          rw [queueItems_updateRoom] at h
          exact status_updateQueueItem_self n.id srv.db it' h hid
        · exact currentFields_updateRoom_self rid _ _ _ _ _
      · intro hempty
        rw [(getNextInQueue_none_iff rid srv.db).mpr hempty] at hnext
        cases hnext
    | none =>
      have hres : wsHandle ws (some rid) (RawMessage.parsed ClientMsg.skipSong) srv =
          ⟨some rid,
           ⟨updateRoom rid
              { currentVideoId := some none
                currentVideoTitle := some none
                currentVideoThumbnail := some none
                isPlaying := some false } srv.db,
            srv.roomConnections⟩,
           [Output.broadcast rid (ServerMsg.currentSong none none none),
            Output.broadcast rid (ServerMsg.queueUpdated []),
            Output.broadcast rid (ServerMsg.playbackState false)]⟩ := by
        simp only [wsHandle, hroom, hcur, hnext]
      rw [hres]
      refine ⟨?_, ?_, ?_⟩
      · intro itP hin hr hps
        exact absurd hps (hnoplay itP hin hr)
      · intro hne
        exact absurd ((getNextInQueue_none_iff rid srv.db).mp hnext) hne
      · intro _
        exact ⟨currentFields_updateRoom_self rid _ _ _ _ _, rfl⟩
  | some it =>
    have hitq : it ∈ getQueueByRoomId rid srv.db := List.mem_of_find?_eq_some hcur
    have hitp : it.status = Status.playing := by simpa using List.find?_some hcur
    obtain ⟨hitin, hitroom⟩ := mem_getQueueByRoomId.mp hitq
    have hW : waitingItems rid (removeFromQueue it.id srv.db) = waitingItems rid srv.db :=
      waitingItems_remove_playing hNodup hitin hitp
    have hremoved : ∀ x ∈ (removeFromQueue it.id srv.db).queueItems, x.id ≠ it.id := by
      intro x hx
      rw [queueItems_removeFromQueue] at hx
      rcases List.mem_filter.mp hx with ⟨_, hne⟩
      simpa using hne
    cases hnext : getNextInQueue rid (removeFromQueue it.id srv.db) with
    | some n =>
      have hres : wsHandle ws (some rid) (RawMessage.parsed ClientMsg.skipSong) srv =
          ⟨some rid,
           ⟨updateRoom rid
              { currentVideoId := some (some n.videoId)
                currentVideoTitle := some (some n.title)
                currentVideoThumbnail := some (some n.thumbnail)
                isPlaying := some true }
              (updateQueueItem n.id { status := some Status.playing }
                (removeFromQueue it.id srv.db)),
            srv.roomConnections⟩,
           [Output.broadcast rid
              (ServerMsg.currentSong (some n.videoId) (some n.title) (some n.thumbnail)),
            Output.broadcast rid (ServerMsg.queueUpdated
              (getQueueByRoomId rid (updateRoom rid
                { currentVideoId := some (some n.videoId)
                  currentVideoTitle := some (some n.title)
                  currentVideoThumbnail := some (some n.thumbnail)
                  isPlaying := some true }
                (updateQueueItem n.id { status := some Status.playing }
                  (removeFromQueue it.id srv.db))))),
            Output.broadcast rid (ServerMsg.playbackState true)]⟩ := by
        simp only [wsHandle, hroom, hcur, hnext]
      obtain ⟨hnmem, hnmin⟩ := getNextInQueue_some_spec rid _ n hnext
      rw [hW] at hnmem hnmin
      rw [hres]
      refine ⟨?_, ?_, ?_⟩
      · intro itP hin hr hps it' h
        have hPit : itP = it := hOne itP hin it hitin hr hps hitroom hitp
        subst hPit
        rw [queueItems_updateRoom] at h
        obtain ⟨x, hx, hxid⟩ := ids_updateQueueItem n.id _ _ it' h
        rw [hxid]
        exact hremoved x hx
      · intro _
        refine ⟨n, hnmem, hnmin, ?_, ?_, rfl⟩
        · intro it' h hid
          rw [queueItems_updateRoom] at h
          exact status_updateQueueItem_self n.id _ it' h hid
        · exact currentFields_updateRoom_self rid _ _ _ _ _
      · intro hempty
        rw [hempty] at hW
        rw [(getNextInQueue_none_iff rid _).mpr hW] at hnext
        cases hnext
    | none =>
      have hres : wsHandle ws (some rid) (RawMessage.parsed ClientMsg.skipSong) srv =
          ⟨some rid,
           ⟨updateRoom rid
              { currentVideoId := some none
                currentVideoTitle := some none
                currentVideoThumbnail := some none
                isPlaying := some false } (removeFromQueue it.id srv.db),
            srv.roomConnections⟩,
           [Output.broadcast rid (ServerMsg.currentSong none none none),
            Output.broadcast rid (ServerMsg.queueUpdated []),
            Output.broadcast rid (ServerMsg.playbackState false)]⟩ := by
        simp only [wsHandle, hroom, hcur, hnext]
      rw [hres]
      refine ⟨?_, ?_, ?_⟩
      · intro itP hin hr hps it' h
        have hPit : itP = it := hOne itP hin it hitin hr hps hitroom hitp
        subst hPit
        rw [queueItems_updateRoom] at h
        exact hremoved it' h
      · intro hne
        rw [← hW] at hne
        exact absurd ((getNextInQueue_none_iff rid _).mp hnext) hne
      · intro _
        exact ⟨currentFields_updateRoom_self rid _ _ _ _ _, rfl⟩

theorem skip_advances_queue_witness :
    (∀ itP ∈ dbAB.queueItems, itP.roomId = 0 → itP.status = Status.playing →
      ∀ it' ∈ (wsHandle 7 (some 0) (RawMessage.parsed ClientMsg.skipSong)
          ⟨dbAB, []⟩).state.db.queueItems,
        it'.id ≠ itP.id) ∧
    (waitingItems 0 dbAB ≠ [] →
      ∃ n, n ∈ waitingItems 0 dbAB ∧
        (∀ m ∈ waitingItems 0 dbAB, n.position ≤ m.position) ∧
        (∀ it' ∈ (wsHandle 7 (some 0) (RawMessage.parsed ClientMsg.skipSong)
            ⟨dbAB, []⟩).state.db.queueItems,
          it'.id = n.id → it'.status = Status.playing) ∧
        (∀ r ∈ (wsHandle 7 (some 0) (RawMessage.parsed ClientMsg.skipSong)
            ⟨dbAB, []⟩).state.db.rooms,
          r.id = 0 →
            r.currentVideoId = some n.videoId ∧
            r.currentVideoTitle = some n.title ∧
            r.currentVideoThumbnail = some n.thumbnail ∧
            r.isPlaying = true) ∧
        (wsHandle 7 (some 0) (RawMessage.parsed ClientMsg.skipSong) ⟨dbAB, []⟩).outputs =
          [Output.broadcast 0
             (ServerMsg.currentSong (some n.videoId) (some n.title) (some n.thumbnail)),
           Output.broadcast 0 (ServerMsg.queueUpdated
             (getQueueByRoomId 0
               (wsHandle 7 (some 0) (RawMessage.parsed ClientMsg.skipSong)
                 ⟨dbAB, []⟩).state.db)),
           Output.broadcast 0 (ServerMsg.playbackState true)]) ∧
    (waitingItems 0 dbAB = [] →
      (∀ r ∈ (wsHandle 7 (some 0) (RawMessage.parsed ClientMsg.skipSong)
          ⟨dbAB, []⟩).state.db.rooms,
        r.id = 0 →
          r.currentVideoId = none ∧
          r.currentVideoTitle = none ∧
          r.currentVideoThumbnail = none ∧
          r.isPlaying = false) ∧
      (wsHandle 7 (some 0) (RawMessage.parsed ClientMsg.skipSong) ⟨dbAB, []⟩).outputs =
        [Output.broadcast 0 (ServerMsg.currentSong none none none),
         Output.broadcast 0 (ServerMsg.queueUpdated []),
         Output.broadcast 0 (ServerMsg.playbackState false)]) :=
  skip_advances_queue 7 0 ⟨dbAB, []⟩
    ⟨0, "AAAAAA", some "v1", some "Song A", some "t1", true⟩
    (by decide) (by decide) (by decide)

/-! ### Playing rows and the cross-entity invariant -/

/-- Playing rows of a room among a row list. -/
def playingOf (rid : Nat) (l : List QueueItem) : List QueueItem :=
  l.filter (fun it => it.roomId == rid && it.status == Status.playing)

theorem mem_playingOf {it : QueueItem} {rid : Nat} {l : List QueueItem} :
    it ∈ playingOf rid l ↔
      it ∈ l ∧ it.roomId = rid ∧ it.status = Status.playing := by
  unfold playingOf
  rw [List.mem_filter]
  simp [and_assoc]

theorem playingOf_append (rid : Nat) (l1 l2 : List QueueItem) :
    playingOf rid (l1 ++ l2) = playingOf rid l1 ++ playingOf rid l2 :=
  List.filter_append _ _

/-- Generic: mapping a function that neither moves rows across the
predicate nor changes rows satisfying it leaves a filter unchanged. -/
theorem filter_map_eq_filter {α : Type} {f : α → α} {p : α → Bool} :
    ∀ {l : List α}, (∀ x ∈ l, p (f x) = p x ∧ (p x = true → f x = x)) →
      (l.map f).filter p = l.filter p := by
  intro l
  induction l with
  | nil => intro _; rfl
  | cons a t ih =>
    intro h
    obtain ⟨hpa, hfa⟩ := h a (List.mem_cons_self a t)
    have ht := fun x hx => h x (List.mem_cons_of_mem a hx)
    simp only [List.map_cons, List.filter_cons, hpa]
    cases hp : p a with
    | true => rw [hfa hp, ih ht]
    | false => exact ih ht

/-- Deleting an id whose unique row is not a playing row of the room
leaves the playing rows of that room unchanged. -/
theorem playingOf_remove_eq {l : List QueueItem} {rid iid : Nat} {item : QueueItem}
    (hNodup : (l.map QueueItem.id).Nodup)
    (hitem : item ∈ l) (hid : item.id = iid)
    (hcond : ¬(item.roomId = rid ∧ item.status = Status.playing)) :
    playingOf rid (l.filter (fun it => !(it.id == iid))) = playingOf rid l := by
  unfold playingOf
  rw [List.filter_filter]
  apply List.filter_congr
  intro a ha
  by_cases haid : a.id = iid
  · have : a = item := List.inj_on_of_nodup_map hNodup ha hitem (haid.trans hid.symm)
    subst this
    rcases hb : (a.roomId == rid && a.status == Status.playing) with _ | _
    · simp [hb]
    · exfalso
      apply hcond
      simpa using hb
  · simp [haid]

/-- Deleting an id commutes with the playing filter. -/
theorem playingOf_remove (rid iid : Nat) (l : List QueueItem) :
    playingOf rid (l.filter (fun it => !(it.id == iid))) =
      (playingOf rid l).filter (fun it => !(it.id == iid)) := by
  unfold playingOf
  rw [List.filter_filter, List.filter_filter]
  apply List.filter_congr
  intro a _
  exact Bool.and_comm _ _

/-- Promoting the unique row with a given id to playing, in a room with
no playing row, leaves exactly that row playing. -/
theorem playingOf_promote {l : List QueueItem} {rid : Nat} {n : QueueItem}
    (hNodup : (l.map QueueItem.id).Nodup) (hn : n ∈ l) (hroom : n.roomId = rid)
    (hnone : playingOf rid l = []) :
    playingOf rid (l.map (fun it =>
        if it.id == n.id then applyQueueItemUpdates { status := some Status.playing } it
        else it)) =
      [applyQueueItemUpdates { status := some Status.playing } n] := by
  have hnp : ∀ x ∈ l, ¬(x.roomId = rid ∧ x.status = Status.playing) := by
    intro x hx hcontra
    have : x ∈ playingOf rid l := mem_playingOf.mpr ⟨hx, hcontra.1, hcontra.2⟩
    rw [hnone] at this
    cases this
  obtain ⟨l1, l2, rfl⟩ := List.append_of_mem hn
  have hids := hNodup
  rw [List.map_append, List.map_cons] at hids
  have hnid1 : ∀ x ∈ l1, x.id ≠ n.id := by
    intro x hx
    have := (List.nodup_append.mp hids).2.2
    intro he
    exact this (List.mem_map_of_mem QueueItem.id hx) (by simp [he])
  have hnid2 : ∀ x ∈ l2, x.id ≠ n.id := by
    have hcons := (List.nodup_append.mp hids).2.1
    rw [List.nodup_cons] at hcons
    intro x hx he
    exact hcons.1 (by
      rw [← he]
      exact List.mem_map_of_mem QueueItem.id hx)
  unfold playingOf
  rw [List.map_append, List.map_cons, List.filter_append, List.filter_cons]
  have hl1 : List.filter (fun it => it.roomId == rid && it.status == Status.playing)
      (l1.map (fun it =>
        if it.id == n.id then applyQueueItemUpdates { status := some Status.playing } it
        else it)) = [] := by
    rw [List.filter_eq_nil_iff]
    intro a ha
    rcases List.mem_map.mp ha with ⟨x, hx, rfl⟩
    have hne : (x.id == n.id) = false := by
      simpa using hnid1 x hx
    rw [hne]
    simp only [Bool.false_eq_true, if_false]
    intro hcontra
    exact hnp x (List.mem_append_left _ hx) (by simpa using hcontra)
  have hl2 : List.filter (fun it => it.roomId == rid && it.status == Status.playing)
      (l2.map (fun it =>
        if it.id == n.id then applyQueueItemUpdates { status := some Status.playing } it
        else it)) = [] := by
    rw [List.filter_eq_nil_iff]
    intro a ha
    rcases List.mem_map.mp ha with ⟨x, hx, rfl⟩
    have hne : (x.id == n.id) = false := by
      simpa using hnid2 x hx
    rw [hne]
    simp only [Bool.false_eq_true, if_false]
    intro hcontra
    exact hnp x (List.mem_append_right _ (List.mem_cons_of_mem n hx)) (by simpa using hcontra)
  rw [hl1, hl2]
  simp [applyQueueItemUpdates, hroom]

/-- A promotion keyed on a row of another room leaves the playing rows of
this room unchanged. -/
theorem playingOf_promote_other {l : List QueueItem} {rid : Nat} {n : QueueItem}
    (hNodup : (l.map QueueItem.id).Nodup) (hn : n ∈ l) (hroom : n.roomId ≠ rid) :
    playingOf rid (l.map (fun it =>
        if it.id == n.id then applyQueueItemUpdates { status := some Status.playing } it
        else it)) = playingOf rid l := by
  unfold playingOf
  apply filter_map_eq_filter
  intro x hx
  by_cases hxid : x.id = n.id
  · have hxn : x = n := List.inj_on_of_nodup_map hNodup hx hn hxid
    subst hxn
    constructor
    · have h1 : (x.roomId == rid) = false := by simpa using hroom
      simp [h1, applyQueueItemUpdates]
    · intro hcontra
      have h1 : (x.roomId == rid) = false := by simpa using hroom
      rw [h1] at hcontra
      cases hcontra
  · have hne : (x.id == n.id) = false := by simpa using hxid
    rw [hne]
    simp

/-- The current-item contract of one room row against the queue rows: no
playing row when the pointer is null, exactly one (and matching) playing
row when it is set. -/
def currentOk (l : List QueueItem) (r : Room) : Prop :=
  (r.currentVideoId = none → playingOf r.id l = []) ∧
  (∀ v, r.currentVideoId = some v → ∃ it, playingOf r.id l = [it] ∧ it.videoId = v)

/-- Structural store invariants maintained by every operation. -/
structure InvCore (db : DB) : Prop where
  roomIdLt : ∀ r ∈ db.rooms, r.id < db.nextId
  itemIdLt : ∀ it ∈ db.queueItems, it.id < db.nextId
  itemIds : (db.queueItems.map QueueItem.id).Nodup
  itemRoomLt : ∀ it ∈ db.queueItems, it.roomId < db.nextId
  posPos : ∀ it ∈ db.queueItems, 1 ≤ it.position

/-- Full reachable-store invariant. -/
structure Inv (db : DB) : Prop where
  core : InvCore db
  current : ∀ r ∈ db.rooms, currentOk db.queueItems r

theorem currentOk_congr_room {l : List QueueItem} {r r' : Room}
    (hid : r'.id = r.id) (hcv : r'.currentVideoId = r.currentVideoId)
    (h : currentOk l r) : currentOk l r' := by
  unfold currentOk at h ⊢
  rw [hid, hcv]
  exact h

theorem currentOk_congr_items {l l' : List QueueItem} {r : Room}
    (hpl : playingOf r.id l' = playingOf r.id l)
    (h : currentOk l r) : currentOk l' r := by
  unfold currentOk at h ⊢
  rw [hpl]
  exact h

theorem invCore_removeFromQueue {db : DB} (h : InvCore db) (iid : Nat) :
    InvCore (removeFromQueue iid db) := by
  have hsub : List.Sublist (removeFromQueue iid db).queueItems db.queueItems := by
    rw [queueItems_removeFromQueue]
    exact List.filter_sublist _
  refine ⟨h.roomIdLt, ?_, ?_, ?_, ?_⟩
  · intro it hin
    exact h.itemIdLt it (hsub.mem hin)
  · exact List.Nodup.sublist (hsub.map QueueItem.id) h.itemIds
  · intro it hin
    exact h.itemRoomLt it (hsub.mem hin)
  · intro it hin
    exact h.posPos it (hsub.mem hin)

theorem invCore_updateQueueItem_status {db : DB} (h : InvCore db) (iid : Nat) :
    InvCore (updateQueueItem iid { status := some Status.playing } db) := by
  have hmem : ∀ it' ∈ (updateQueueItem iid { status := some Status.playing } db).queueItems,
      ∃ x ∈ db.queueItems,
        it'.id = x.id ∧ it'.roomId = x.roomId ∧ it'.position = x.position := by
    intro it' hin
    rw [queueItems_updateQueueItem] at hin
    rcases List.mem_map.mp hin with ⟨x, hx, rfl⟩
    refine ⟨x, hx, ?_⟩
    by_cases hxe : x.id = iid <;> simp [hxe, applyQueueItemUpdates]
  refine ⟨h.roomIdLt, ?_, ?_, ?_, ?_⟩
  · intro it hin
    obtain ⟨x, hx, hid, _, _⟩ := hmem it hin
    rw [hid]
    exact h.itemIdLt x hx
  · have hmap : (updateQueueItem iid { status := some Status.playing } db).queueItems.map
        QueueItem.id = db.queueItems.map QueueItem.id := by
      rw [queueItems_updateQueueItem, List.map_map]
      apply List.map_congr_left
      intro x _
      by_cases hxe : x.id = iid <;> simp [hxe, applyQueueItemUpdates]
    rw [hmap]
    exact h.itemIds
  · intro it hin
    obtain ⟨x, hx, _, hroom, _⟩ := hmem it hin
    rw [hroom]
    exact h.itemRoomLt x hx
  · intro it hin
    obtain ⟨x, hx, _, _, hpos⟩ := hmem it hin
    rw [hpos]
    exact h.posPos x hx

theorem invCore_updateRoom {db : DB} (h : InvCore db) (rid : Nat) (u : RoomUpdates) :
    InvCore (updateRoom rid u db) := by
  refine ⟨?_, h.itemIdLt, h.itemIds, h.itemRoomLt, h.posPos⟩
  intro r hin
  rw [rooms_updateRoom] at hin
  rcases List.mem_map.mp hin with ⟨r0, hr0, rfl⟩
  by_cases he : r0.id = rid
  · simp only [he, beq_self_eq_true, if_true, id_applyRoomUpdates]
    rw [← he]
    exact h.roomIdLt r0 hr0
  · have hfalse : (r0.id == rid) = false := by simpa using he
    simp only [hfalse, Bool.false_eq_true, if_false]
    exact h.roomIdLt r0 hr0

theorem currentVideoId_applyRoomUpdates (u : RoomUpdates) (r : Room)
    (h : u.currentVideoId = none) :
    (applyRoomUpdates u r).currentVideoId = r.currentVideoId := by
  simp [applyRoomUpdates, h]

/-- Promotion of the next waiting row restores the full invariant when
the room has no playing row left. -/
theorem inv_promote_full {db1 : DB} {rid : Nat} {n : QueueItem}
    (hCore : InvCore db1)
    (hAway : ∀ r ∈ db1.rooms, r.id ≠ rid → currentOk db1.queueItems r)
    (hnone : playingOf rid db1.queueItems = [])
    (hn : getNextInQueue rid db1 = some n) :
    Inv (updateRoom rid
      { currentVideoId := some (some n.videoId)
        currentVideoTitle := some (some n.title)
        currentVideoThumbnail := some (some n.thumbnail)
        isPlaying := some true }
      (updateQueueItem n.id { status := some Status.playing } db1)) := by
  obtain ⟨hnw, _⟩ := getNextInQueue_some_spec rid db1 n hn
  rcases mem_waitingItems.mp hnw with ⟨hnin, hnroom, _⟩
  have hpl : playingOf rid
      (updateQueueItem n.id { status := some Status.playing } db1).queueItems =
      [applyQueueItemUpdates { status := some Status.playing } n] := by
    rw [queueItems_updateQueueItem]
    exact playingOf_promote hCore.itemIds hnin hnroom hnone
  refine ⟨invCore_updateRoom (invCore_updateQueueItem_status hCore n.id) rid _, ?_⟩
  intro r hr
  rw [rooms_updateRoom] at hr
  rcases List.mem_map.mp hr with ⟨r0, hr0, rfl⟩
  rw [queueItems_updateRoom]
  by_cases he : r0.id = rid
  · have heq : (r0.id == rid) = true := by simpa using he
    simp only [heq, if_true]
    constructor
    · intro hnone2
      simp [applyRoomUpdates] at hnone2
    · intro v hv
      have hv2 : v = n.videoId := by
        simp [applyRoomUpdates] at hv
        exact hv.symm
      refine ⟨applyQueueItemUpdates { status := some Status.playing } n, ?_, ?_⟩
      · rw [id_applyRoomUpdates, he]
        exact hpl
      · rw [hv2]
        rfl
  · have hfalse : (r0.id == rid) = false := by simpa using he
    simp only [hfalse, Bool.false_eq_true, if_false]
    refine currentOk_congr_items ?_ (hAway r0 hr0 he)
    rw [queueItems_updateQueueItem]
    exact playingOf_promote_other hCore.itemIds hnin (by rw [hnroom]; exact fun hcontra => he hcontra.symm)

/-- Clearing the room pointer restores the full invariant when the room
has no playing row left. -/
theorem inv_clear_full {db1 : DB} {rid : Nat}
    (hCore : InvCore db1)
    (hAway : ∀ r ∈ db1.rooms, r.id ≠ rid → currentOk db1.queueItems r)
    (hnone : playingOf rid db1.queueItems = []) :
    Inv (updateRoom rid
      { currentVideoId := some none
        currentVideoTitle := some none
        currentVideoThumbnail := some none
        isPlaying := some false } db1) := by
  refine ⟨invCore_updateRoom hCore rid _, ?_⟩
  intro r hr
  rw [rooms_updateRoom] at hr
  rcases List.mem_map.mp hr with ⟨r0, hr0, rfl⟩
  rw [queueItems_updateRoom]
  by_cases he : r0.id = rid
  · have heq : (r0.id == rid) = true := by simpa using he
    simp only [heq, if_true]
    constructor
    · intro _
      rw [id_applyRoomUpdates, he]
      exact hnone
    · intro v hv
      simp [applyRoomUpdates] at hv
  · have hfalse : (r0.id == rid) = false := by simpa using he
    simp only [hfalse, Bool.false_eq_true, if_false]
    exact hAway r0 hr0 he

/-- A pure isPlaying toggle preserves the invariant. -/
theorem inv_updateRoom_flag {db : DB} (h : Inv db) (rid : Nat) (b : Bool) :
    Inv (updateRoom rid { isPlaying := some b } db) := by
  refine ⟨invCore_updateRoom h.core rid _, ?_⟩
  intro r hr
  rw [rooms_updateRoom] at hr
  rcases List.mem_map.mp hr with ⟨r0, hr0, rfl⟩
  rw [queueItems_updateRoom]
  by_cases he : r0.id = rid
  · have heq : (r0.id == rid) = true := by simpa using he
    simp only [heq, if_true]
    exact currentOk_congr_room (id_applyRoomUpdates _ _)
      (currentVideoId_applyRoomUpdates _ _ rfl) (h.current r0 hr0)
  · have hfalse : (r0.id == rid) = false := by simpa using he
    simp only [hfalse, Bool.false_eq_true, if_false]
    exact h.current r0 hr0

theorem room_of_getRoomByCode {c : String} {db : DB} {room : Room}
    (h : getRoomByCode c db = some room) : room ∈ db.rooms :=
  List.mem_of_find?_eq_some h

/-- Room creation preserves the invariant. -/
theorem inv_create {db : DB} (h : Inv db) (code : String) :
    Inv (postRoomsCreate code db).2 := by
  have hrooms : (postRoomsCreate code db).2.rooms =
      db.rooms ++ [⟨db.nextId, code, none, none, none, false⟩] := rfl
  have hitems : (postRoomsCreate code db).2.queueItems = db.queueItems := rfl
  have hnext : (postRoomsCreate code db).2.nextId = db.nextId + 1 := rfl
  constructor
  · refine ⟨?_, ?_, ?_, ?_, ?_⟩
    · intro r hr
      rw [hrooms] at hr
      rw [hnext]
      rcases List.mem_append.mp hr with hold | hnew
      · exact Nat.lt_succ_of_lt (h.core.roomIdLt r hold)
      · rw [List.mem_singleton.mp hnew]
        exact Nat.lt_succ_self _
    · intro it hin
      rw [hitems] at hin
      rw [hnext]
      exact Nat.lt_succ_of_lt (h.core.itemIdLt it hin)
    · rw [hitems]
      exact h.core.itemIds
    · intro it hin
      rw [hitems] at hin
      rw [hnext]
      exact Nat.lt_succ_of_lt (h.core.itemRoomLt it hin)
    · intro it hin
      rw [hitems] at hin
      exact h.core.posPos it hin
  · intro r hr
    rw [hrooms] at hr
    rw [hitems]
    rcases List.mem_append.mp hr with hold | hnew
    · exact h.current r hold
    · rw [List.mem_singleton.mp hnew]
      constructor
      · intro _
        unfold playingOf
        rw [List.filter_eq_nil_iff]
        intro a ha
        have halt := h.core.itemRoomLt a ha
        simp only [Bool.and_eq_true, beq_iff_eq, not_and]
        intro h1 _
        omega
      · intro v hv
        simp at hv

/-- Queue insertion preserves the invariant. -/
theorem inv_add {db : DB} (h : Inv db) (code : String) (body : AddBody) :
    Inv (postQueueRoute code body db).2.1 := by
  cases hroom : getRoomByCode (jsToUpperCase code) db with
  | none =>
    have hsame : (postQueueRoute code body db).2.1 = db := by
      unfold postQueueRoute
      rw [hroom]
    rw [hsame]
    exact h
  | some room =>
    cases hv : validBody body with
    | false =>
      have hsame : (postQueueRoute code body db).2.1 = db := by
        unfold postQueueRoute
        rw [hroom]
        simp [hv]
      rw [hsame]
      exact h
    | true =>
      have hroomem : room ∈ db.rooms := room_of_getRoomByCode hroom
      have hitemsA : (dbAfterAdd room body db).queueItems =
          db.queueItems ++ [insertedItem room body db] := rfl
      have hCoreAdd : InvCore (dbAfterAdd room body db) := by
        refine ⟨?_, ?_, ?_, ?_, ?_⟩
        · intro r hr
          exact Nat.lt_succ_of_lt (h.core.roomIdLt r hr)
        · intro it hin
          rw [hitemsA] at hin
          rcases List.mem_append.mp hin with hold | hnew
          · exact Nat.lt_succ_of_lt (h.core.itemIdLt it hold)
          · rw [List.mem_singleton.mp hnew]
            exact Nat.lt_succ_self _
        · rw [hitemsA, List.map_append]
          refine List.Nodup.append h.core.itemIds (List.nodup_singleton _) ?_
          intro a ha hb
          rcases List.mem_map.mp ha with ⟨x, hx, rfl⟩
          simp [insertedItem] at hb
          have := h.core.itemIdLt x hx
          omega
        · intro it hin
          rw [hitemsA] at hin
          rcases List.mem_append.mp hin with hold | hnew
          · exact Nat.lt_succ_of_lt (h.core.itemRoomLt it hold)
          · rw [List.mem_singleton.mp hnew]
            exact Nat.lt_succ_of_lt (h.core.roomIdLt room hroomem)
        · intro it hin
          rw [hitemsA] at hin
          rcases List.mem_append.mp hin with hold | hnew
          · exact h.core.posPos it hold
          · rw [List.mem_singleton.mp hnew]
            exact Nat.succ_le_succ (Nat.zero_le _)
      by_cases h0 : getMaxPosition room.id db = 0
      · rw [postQueueRoute_max0 code body db room hroom hv h0]
        show Inv (dbAfterFirstAdd room body db)
        have hqempty : getQueueByRoomId room.id db = [] :=
          (getMaxPosition_eq_zero_iff (fun it hin hr => h.core.posPos it hin)).mp h0
        have hnoitems : ∀ x ∈ db.queueItems, x.roomId ≠ room.id := by
          intro x hx hr
          have hmem : x ∈ getQueueByRoomId room.id db := mem_getQueueByRoomId.mpr ⟨hx, hr⟩
          rw [hqempty] at hmem
          cases hmem
        have hpl0 : playingOf room.id db.queueItems = [] := by
          unfold playingOf
          rw [List.filter_eq_nil_iff]
          intro a ha
          simp only [Bool.and_eq_true, beq_iff_eq, not_and]
          intro h1 _
          exact hnoitems a ha h1
        have hstat : (insertedItem room body db).status = Status.playing := by
          simp [insertedItem, h0]
        unfold dbAfterFirstAdd
        refine ⟨invCore_updateRoom hCoreAdd room.id _, ?_⟩
        intro r hr
        rw [rooms_updateRoom] at hr
        rcases List.mem_map.mp hr with ⟨r0, hr0, rfl⟩
        rw [queueItems_updateRoom]
        by_cases he : r0.id = room.id
        · have heq : (r0.id == room.id) = true := by simpa using he
          simp only [heq, if_true]
          constructor
          · intro hnone2
            simp [applyRoomUpdates, firstSongUpdates] at hnone2
          · intro v hv2
            have hveq : v = body.videoId := by
              simp [applyRoomUpdates, firstSongUpdates] at hv2
              exact hv2.symm
            refine ⟨insertedItem room body db, ?_, ?_⟩
            · rw [id_applyRoomUpdates, he, hitemsA, playingOf_append, hpl0,
                List.nil_append]
              unfold playingOf
              simp [insertedItem, h0]
            · rw [hveq]
              rfl
        · have hfalse : (r0.id == room.id) = false := by simpa using he
          simp only [hfalse, Bool.false_eq_true, if_false]
          refine currentOk_congr_items ?_ (h.current r0 hr0)
          rw [hitemsA, playingOf_append]
          have hone : playingOf r0.id [insertedItem room body db] = [] := by
            have hne : ((insertedItem room body db).roomId == r0.id) = false := by
              simp [insertedItem]
              exact fun hh => he hh.symm
            unfold playingOf
            simp [hne]
          rw [hone, List.append_nil]
      · rw [postQueueRoute_maxpos code body db room hroom hv h0]
        show Inv (dbAfterAdd room body db)
        have hb : (getMaxPosition room.id db == 0) = false := by simpa using h0
        have hwait : (insertedItem room body db).status = Status.waiting := by
          simp [insertedItem, hb]
        refine ⟨hCoreAdd, ?_⟩
        intro r hr
        have hr0 : r ∈ db.rooms := hr
        refine currentOk_congr_items ?_ (h.current r hr0)
        rw [hitemsA, playingOf_append]
        have hone : playingOf r.id [insertedItem room body db] = [] := by
          unfold playingOf
          simp [hwait]
        rw [hone, List.append_nil]

/-- The scoped removal route preserves the invariant. -/
theorem inv_removeScoped {db : DB} (h : Inv db) (code : String) (itemId : Nat) :
    Inv (deleteRoomQueueItemRoute code itemId db).2.1 := by
  cases hroom : getRoomByCode (jsToUpperCase code) db with
  | none =>
    have hsame : (deleteRoomQueueItemRoute code itemId db).2.1 = db := by
      unfold deleteRoomQueueItemRoute
      rw [hroom]
    rw [hsame]
    exact h
  | some room =>
    cases hfind : (getQueueByRoomId room.id db).find? (fun it => it.id == itemId) with
    | none =>
      have hsame : (deleteRoomQueueItemRoute code itemId db).2.1 = db := by
        unfold deleteRoomQueueItemRoute
        rw [hroom]
        simp [hfind]
      rw [hsame]
      exact h
    | some item =>
      have hid : item.id = itemId := by simpa using List.find?_some hfind
      have hq := List.mem_of_find?_eq_some hfind
      obtain ⟨hitin, hitroom⟩ := mem_getQueueByRoomId.mp hq
      have hroomem := room_of_getRoomByCode hroom
      cases hst : item.status with
      | waiting =>
        have hwp : (item.status == Status.playing) = false := by simp [hst]
        rw [deleteRoute_found_waiting code itemId db room item hroom hfind hwp]
        show Inv (removeFromQueue itemId db)
        refine ⟨invCore_removeFromQueue h.core itemId, ?_⟩
        intro r hr
        have hr0 : r ∈ db.rooms := hr
        refine currentOk_congr_items ?_ (h.current r hr0)
        rw [queueItems_removeFromQueue]
        exact playingOf_remove_eq h.core.itemIds hitin hid (by simp [hst])
      | playing =>
        have hwp : (item.status == Status.playing) = true := by simp [hst]
        have hOk := h.current room hroomem
        have hplay_db : playingOf room.id db.queueItems = [item] := by
          rcases hcv : room.currentVideoId with _ | v
          · exfalso
            have hmem : item ∈ playingOf room.id db.queueItems :=
              mem_playingOf.mpr ⟨hitin, hitroom, hst⟩
            rw [hOk.1 hcv] at hmem
            cases hmem
          · obtain ⟨itv, hpl, _⟩ := hOk.2 v hcv
            have hmem : item ∈ playingOf room.id db.queueItems :=
              mem_playingOf.mpr ⟨hitin, hitroom, hst⟩
            rw [hpl] at hmem
            rw [hpl, List.mem_singleton.mp hmem]
        have hnone1 : playingOf room.id (removeFromQueue itemId db).queueItems = [] := by
          rw [queueItems_removeFromQueue, playingOf_remove, hplay_db]
          simp [hid]
        have hAway1 : ∀ r ∈ (removeFromQueue itemId db).rooms, r.id ≠ room.id →
            currentOk (removeFromQueue itemId db).queueItems r := by
          intro r hr hne
          have hr0 : r ∈ db.rooms := hr
          refine currentOk_congr_items ?_ (h.current r hr0)
          rw [queueItems_removeFromQueue]
          refine playingOf_remove_eq h.core.itemIds hitin hid ?_
          rintro ⟨h1, _⟩
          rw [h1] at hitroom
          exact hne hitroom
        cases hnext : getNextInQueue room.id (removeFromQueue itemId db) with
        | some n =>
          rw [deleteRoute_found_playing_some code itemId db room item n hroom hfind hwp hnext]
          exact inv_promote_full (invCore_removeFromQueue h.core itemId) hAway1 hnone1 hnext
        | none =>
          rw [deleteRoute_found_playing_none code itemId db room item hroom hfind hwp hnext]
          exact inv_clear_full (invCore_removeFromQueue h.core itemId) hAway1 hnone1

/-- Every realtime frame preserves the invariant. -/
theorem inv_ws {db : DB} (h : Inv db) (ws : Nat) (conn : Option Nat) (raw : RawMessage)
    (reg : List (Nat × List Nat)) :
    Inv (wsHandle ws conn raw ⟨db, reg⟩).state.db := by
  cases raw with
  | malformed => exact h
  | parsed msg =>
    cases msg with
    | joinRoom code =>
      cases hroom : getRoomByCode code db with
      | none =>
        have hsame : (wsHandle ws conn (RawMessage.parsed (ClientMsg.joinRoom code))
            ⟨db, reg⟩).state.db = db := by
          simp only [wsHandle, hroom]
        rw [hsame]
        exact h
      | some room =>
        have hsame : (wsHandle ws conn (RawMessage.parsed (ClientMsg.joinRoom code))
            ⟨db, reg⟩).state.db = db := by
          simp only [wsHandle, hroom]
        rw [hsame]
        exact h
    | play =>
      cases conn with
      | none => exact h
      | some rid => exact inv_updateRoom_flag h rid true
    | pause =>
      cases conn with
      | none => exact h
      | some rid => exact inv_updateRoom_flag h rid false
    | skipSong =>
      cases conn with
      | none => exact h
      | some rid =>
        cases hroomF : getRoom rid db with
        | none =>
          have hsame : (wsHandle ws (some rid) (RawMessage.parsed ClientMsg.skipSong)
              ⟨db, reg⟩).state.db = db := by
            simp only [wsHandle, hroomF]
          rw [hsame]
          exact h
        | some room =>
          have hroomem : room ∈ db.rooms := List.mem_of_find?_eq_some hroomF
          have hrid : room.id = rid := by simpa using List.find?_some hroomF
          cases hcur : (getQueueByRoomId rid db).find?
              (fun it => it.status == Status.playing) with
          | none =>
            have hnone : playingOf rid db.queueItems = [] := by
              unfold playingOf
              rw [List.filter_eq_nil_iff]
              intro a ha
              simp only [Bool.and_eq_true, beq_iff_eq, not_and]
              intro h1 h2
              have hmem : a ∈ getQueueByRoomId rid db := mem_getQueueByRoomId.mpr ⟨ha, h1⟩
              have := List.find?_eq_none.mp hcur a hmem
              simp [h2] at this
            have hAway : ∀ r ∈ db.rooms, r.id ≠ rid → currentOk db.queueItems r :=
              fun r hr _ => h.current r hr
            cases hnext : getNextInQueue rid db with
            | some n =>
              have hsame : (wsHandle ws (some rid) (RawMessage.parsed ClientMsg.skipSong)
                  ⟨db, reg⟩).state.db =
                  updateRoom rid
                    { currentVideoId := some (some n.videoId)
                      currentVideoTitle := some (some n.title)
                      currentVideoThumbnail := some (some n.thumbnail)
                      isPlaying := some true }
                    (updateQueueItem n.id { status := some Status.playing } db) := by
                simp only [wsHandle, hroomF, hcur, hnext]
              rw [hsame]
              exact inv_promote_full h.core hAway hnone hnext
            | none =>
              have hsame : (wsHandle ws (some rid) (RawMessage.parsed ClientMsg.skipSong)
                  ⟨db, reg⟩).state.db =
                  updateRoom rid
                    { currentVideoId := some none
                      currentVideoTitle := some none
                      currentVideoThumbnail := some none
                      isPlaying := some false } db := by
                simp only [wsHandle, hroomF, hcur, hnext]
              rw [hsame]
              exact inv_clear_full h.core hAway hnone
          | some it =>
            have hitq := List.mem_of_find?_eq_some hcur
            have hitp : it.status = Status.playing := by simpa using List.find?_some hcur
            obtain ⟨hitin, hitroom⟩ := mem_getQueueByRoomId.mp hitq
            have hOk := h.current room hroomem
            unfold currentOk at hOk
            rw [hrid] at hOk
            have hplay_db : playingOf rid db.queueItems = [it] := by
              rcases hcv : room.currentVideoId with _ | v
              · exfalso
                have hmem : it ∈ playingOf rid db.queueItems :=
                  mem_playingOf.mpr ⟨hitin, hitroom, hitp⟩
                rw [hOk.1 hcv] at hmem
                cases hmem
              · obtain ⟨itv, hpl, _⟩ := hOk.2 v hcv
                have hmem : it ∈ playingOf rid db.queueItems :=
                  mem_playingOf.mpr ⟨hitin, hitroom, hitp⟩
                rw [hpl] at hmem
                rw [hpl, List.mem_singleton.mp hmem]
            have hnone1 : playingOf rid (removeFromQueue it.id db).queueItems = [] := by
              rw [queueItems_removeFromQueue, playingOf_remove, hplay_db]
              simp
            have hAway1 : ∀ r ∈ (removeFromQueue it.id db).rooms, r.id ≠ rid →
                currentOk (removeFromQueue it.id db).queueItems r := by
              intro r hr hne
              have hr0 : r ∈ db.rooms := hr
              refine currentOk_congr_items ?_ (h.current r hr0)
              rw [queueItems_removeFromQueue]
              refine playingOf_remove_eq h.core.itemIds hitin rfl ?_
              rintro ⟨h1, _⟩
              rw [h1] at hitroom
              exact hne hitroom
            cases hnext : getNextInQueue rid (removeFromQueue it.id db) with
            | some n =>
              have hsame : (wsHandle ws (some rid) (RawMessage.parsed ClientMsg.skipSong)
                  ⟨db, reg⟩).state.db =
                  updateRoom rid
                    { currentVideoId := some (some n.videoId)
                      currentVideoTitle := some (some n.title)
                      currentVideoThumbnail := some (some n.thumbnail)
                      isPlaying := some true }
                    (updateQueueItem n.id { status := some Status.playing }
                      (removeFromQueue it.id db)) := by
                simp only [wsHandle, hroomF, hcur, hnext]
              rw [hsame]
              exact inv_promote_full (invCore_removeFromQueue h.core it.id) hAway1 hnone1 hnext
            | none =>
              have hsame : (wsHandle ws (some rid) (RawMessage.parsed ClientMsg.skipSong)
                  ⟨db, reg⟩).state.db =
                  updateRoom rid
                    { currentVideoId := some none
                      currentVideoTitle := some none
                      currentVideoThumbnail := some none
                      isPlaying := some false } (removeFromQueue it.id db) := by
                simp only [wsHandle, hroomF, hcur, hnext]
              rw [hsame]
              exact inv_clear_full (invCore_removeFromQueue h.core it.id) hAway1 hnone1
    | other t => exact h

/-! ### Reachability and Claim C2 -/

/-- Stores reachable from the empty store through the public operations
with the room-scoped removal route. -/
inductive Reachable : DB → Prop where
  | init : Reachable ⟨[], [], 0⟩
  | create (db : DB) (code : String) : Reachable db → getRoomByCode code db = none →
      Reachable (postRoomsCreate code db).2
  | addItem (db : DB) (code : String) (body : AddBody) : Reachable db →
      Reachable (postQueueRoute code body db).2.1
  | removeItem (db : DB) (code : String) (itemId : Nat) : Reachable db →
      Reachable (deleteRoomQueueItemRoute code itemId db).2.1
  | wsOp (db : DB) (ws : Nat) (conn : Option Nat) (raw : RawMessage)
      (reg : List (Nat × List Nat)) : Reachable db →
      Reachable (wsHandle ws conn raw ⟨db, reg⟩).state.db

/-- Stores reachable when the bare DELETE /api/queue/:id route is also
among the public operations. -/
inductive ReachableL : DB → Prop where
  | init : ReachableL ⟨[], [], 0⟩
  | create (db : DB) (code : String) : ReachableL db → getRoomByCode code db = none →
      ReachableL (postRoomsCreate code db).2
  | addItem (db : DB) (code : String) (body : AddBody) : ReachableL db →
      ReachableL (postQueueRoute code body db).2.1
  | removeItem (db : DB) (code : String) (itemId : Nat) : ReachableL db →
      ReachableL (deleteRoomQueueItemRoute code itemId db).2.1
  | legacyRemove (db : DB) (id : Nat) : ReachableL db →
      ReachableL (deleteQueueByIdRoute id db)
  | wsOp (db : DB) (ws : Nat) (conn : Option Nat) (raw : RawMessage)
      (reg : List (Nat × List Nat)) : ReachableL db →
      ReachableL (wsHandle ws conn raw ⟨db, reg⟩).state.db

theorem reachable_inv : ∀ {db : DB}, Reachable db → Inv db := by
  intro db h
  induction h with
  | init => exact ⟨⟨by simp, by simp, by simp, by simp, by simp⟩, by simp⟩
  | create db code hr hfresh ih => exact inv_create ih code
  | addItem db code body hr ih => exact inv_add ih code body
  | removeItem db code itemId hr ih => exact inv_removeScoped ih code itemId
  | wsOp db ws conn raw reg hr ih => exact inv_ws ih ws conn raw reg

/-- C2 (amended): in every store reachable through create room, add to
queue, room-scoped remove, play, pause, skip and join, every room has at
most one playing queue row; such a row exists exactly when the room
currentVideoId is set, and then the videoId values match. The claim as
frozen also admits the bare DELETE /api/queue/:id route, which breaks
this; see the counterexample. -/
theorem queue_playing_invariant (db : DB) (h : Reachable db) :
    ∀ r ∈ db.rooms,
      (∀ a ∈ db.queueItems, ∀ b ∈ db.queueItems,
        a.roomId = r.id → a.status = Status.playing →
        b.roomId = r.id → b.status = Status.playing → a = b) ∧
      ((∃ it ∈ db.queueItems, it.roomId = r.id ∧ it.status = Status.playing) ↔
        r.currentVideoId ≠ none) ∧
      (∀ it ∈ db.queueItems, it.roomId = r.id → it.status = Status.playing →
        some it.videoId = r.currentVideoId) := by
  have hInv := reachable_inv h
  intro r hr
  have hOk := hInv.current r hr
  refine ⟨?_, ⟨?_, ?_⟩, ?_⟩
  · intro a ha b hb har hap hbr hbp
    have hma : a ∈ playingOf r.id db.queueItems := mem_playingOf.mpr ⟨ha, har, hap⟩
    have hmb : b ∈ playingOf r.id db.queueItems := mem_playingOf.mpr ⟨hb, hbr, hbp⟩
    rcases hcv : r.currentVideoId with _ | v
    · rw [hOk.1 hcv] at hma
      cases hma
    · obtain ⟨itv, hpl, _⟩ := hOk.2 v hcv
      rw [hpl] at hma hmb
      rw [List.mem_singleton.mp hma, List.mem_singleton.mp hmb]
  · rintro ⟨it, hin, hroomEq, hps⟩
    intro hcv
    have hm : it ∈ playingOf r.id db.queueItems := mem_playingOf.mpr ⟨hin, hroomEq, hps⟩
    rw [hOk.1 hcv] at hm
    cases hm
  · intro hne
    rcases hcv : r.currentVideoId with _ | v
    · exact absurd hcv hne
    · obtain ⟨itv, hpl, _⟩ := hOk.2 v hcv
      have hm : itv ∈ playingOf r.id db.queueItems := by
        rw [hpl]
        exact List.mem_singleton_self _
      rcases mem_playingOf.mp hm with ⟨hin, hroomEq, hps⟩
      exact ⟨itv, hin, hroomEq, hps⟩
  · intro it hin hroomEq hps
    have hm : it ∈ playingOf r.id db.queueItems := mem_playingOf.mpr ⟨hin, hroomEq, hps⟩
    rcases hcv : r.currentVideoId with _ | v
    · rw [hOk.1 hcv] at hm
      cases hm
    · obtain ⟨itv, hpl, hvid⟩ := hOk.2 v hcv
      rw [hpl] at hm
      rw [List.mem_singleton.mp hm, hvid]

theorem queue_playing_invariant_witness :
    (∀ a ∈ dbAB.queueItems, ∀ b ∈ dbAB.queueItems,
      a.roomId = (⟨0, "AAAAAA", some "v1", some "Song A", some "t1", true⟩ : Room).id →
      a.status = Status.playing →
      b.roomId = (⟨0, "AAAAAA", some "v1", some "Song A", some "t1", true⟩ : Room).id →
      b.status = Status.playing → a = b) ∧
    ((∃ it ∈ dbAB.queueItems,
        it.roomId = (⟨0, "AAAAAA", some "v1", some "Song A", some "t1", true⟩ : Room).id ∧
        it.status = Status.playing) ↔
      (⟨0, "AAAAAA", some "v1", some "Song A", some "t1", true⟩ : Room).currentVideoId ≠ none) ∧
    (∀ it ∈ dbAB.queueItems,
      it.roomId = (⟨0, "AAAAAA", some "v1", some "Song A", some "t1", true⟩ : Room).id →
      it.status = Status.playing →
      some it.videoId =
        (⟨0, "AAAAAA", some "v1", some "Song A", some "t1", true⟩ : Room).currentVideoId) :=
  queue_playing_invariant dbAB
    (Reachable.addItem _ "AAAAAA" bodyB
      (Reachable.addItem _ "AAAAAA" bodyA
        (Reachable.create _ "AAAAAA" Reachable.init (by decide))))
    ⟨0, "AAAAAA", some "v1", some "Song A", some "t1", true⟩ (by decide)

/-- Store after create, add, then the bare DELETE of the playing row. -/
def dbLegacy : DB := deleteQueueByIdRoute 1 (postQueueRoute "AAAAAA" bodyA dbRoom).2.1

/-- C2 (counterexample): with the bare DELETE /api/queue/:id route among
the public remove operations, a store reachable by create, add,
legacy-delete has a room whose currentVideoId is still set while no queue
row of that room is playing, so the claimed iff fails. -/
theorem legacy_delete_breaks_invariant :
    ReachableL dbLegacy ∧
    ∃ r ∈ dbLegacy.rooms, r.currentVideoId ≠ none ∧
      ∀ it ∈ dbLegacy.queueItems, ¬(it.roomId = r.id ∧ it.status = Status.playing) := by
  constructor
  · exact ReachableL.legacyRemove _ 1
      (ReachableL.addItem _ "AAAAAA" bodyA
        (ReachableL.create _ "AAAAAA" ReachableL.init (by decide)))
  · decide

/-! ### Claim C10 -/

theorem toNat_ofNat_valid {n : Nat} (h : n.isValidChar) : (Char.ofNat n).toNat = n := by
  unfold Char.ofNat
  rw [dif_pos h]
  rfl

/-- Uppercasing maps nothing but the digit 2 to the digit 2. -/
theorem jsCharUpper_eq_two {c : Char} (h : jsCharUpper c = '2') : c = '2' := by
  unfold jsCharUpper at h
  by_cases hc : 97 ≤ c.toNat ∧ c.toNat ≤ 122
  · exfalso
    rw [if_pos hc] at h
    have hval : (c.toNat - 32).isValidChar := Or.inl (by omega)
    have htn := congrArg Char.toNat h
    rw [toNat_ofNat_valid hval] at htn
    have h2 : ('2' : Char).toNat = 50 := rfl
    rw [h2] at htn
    omega
  · rw [if_neg hc] at h
    exact h

/-- Letters of the code alphabet. -/
def upperLetters : List Char := "ABCDEFGHJKLMNPQRSTUVWXYZ".data

theorem upper_lower_alpha : ∀ c ∈ codeAlphabet, jsCharUpper (jsCharLower c) = c := by
  decide

theorem lower_letter_not_alpha : ∀ c ∈ upperLetters, jsCharLower c ∉ codeAlphabet := by
  decide

theorem map_jsCharUpper_eq_of_forall :
    ∀ (l m : List Char), (∀ b ∈ m, ∀ a, jsCharUpper a = b → a = b) →
      l.map jsCharUpper = m → l = m := by
  intro l
  induction l with
  | nil =>
    intro m _ h
    simpa using h
  | cons a t ih =>
    intro m hb h
    cases m with
    | nil => simp at h
    | cons b mt =>
      rw [List.map_cons, List.cons.injEq] at h
      have ha : a = b := hb b (List.mem_cons_self b mt) a h.1
      have ht : t = mt := ih mt (fun x hx => hb x (List.mem_cons_of_mem b hx)) h.2
      rw [ha, ht]

def room222 : Room := ⟨0, "222222", none, none, none, false⟩

def db222 : DB := ⟨[room222], [], 1⟩

/-- C10 (counterexample): for the room with the all-digit code 222222, no
code string at all resolves over HTTP while yielding the Room-not-found
error over the realtime channel: the only string whose uppercasing is
222222 is 222222 itself, and that one joins fine. So the claimed
quantification over every room fails. -/
theorem digit_code_has_no_splitting_spelling :
    ¬ ∃ s : String, (∃ room queue, getRoomRoute s db222 = ApiResult.ok (room, queue)) ∧
        (wsHandle 0 none (RawMessage.parsed (ClientMsg.joinRoom s))
          ⟨db222, []⟩).outputs = [Output.send 0 (ServerMsg.error "Room not found")] := by
  rintro ⟨s, ⟨room, queue, hok⟩, herr⟩
  have hup : jsToUpperCase s = "222222" := by
    by_cases h222 : room222.code == jsToUpperCase s
    · exact (beq_iff_eq.mp h222).symm
    · exfalso
      have hfalse : (room222.code == jsToUpperCase s) = false := by simpa using h222
      unfold getRoomRoute getRoomByCode at hok
      simp only [db222] at hok
      simp [hfalse] at hok
  have hdata : s.data.map jsCharUpper = "222222".data := congrArg String.data hup
  have hs : s.data = "222222".data := by
    refine map_jsCharUpper_eq_of_forall s.data "222222".data ?_ hdata
    intro b hbmem a hfa
    have hb2 : b = '2' := by
      fin_cases hbmem <;> rfl
    rw [hb2] at hfa ⊢
    exact jsCharUpper_eq_two hfa
  have hseq : s = "222222" := congrArg String.mk hs
  rw [hseq] at herr
  have : (wsHandle 0 none (RawMessage.parsed (ClientMsg.joinRoom "222222"))
      ⟨db222, []⟩).outputs = [Output.send 0 (ServerMsg.roomState room222 [])] := by
    decide
  rw [this] at herr
  cases herr

/-- C10 (amended): the HTTP routes uppercase the supplied room code
before lookup while the realtime join passes it through unchanged, so for
every room whose code contains at least one letter (room codes are drawn
from the uppercase 32-symbol alphabet), the all-lowercase spelling of its
code resolves over HTTP yet draws the Room-not-found error over the
realtime channel. All-digit codes have no such spelling. -/
theorem lowercase_code_splits_channels (db : DB) (r : Room)
    (hcodes : ∀ rr ∈ db.rooms, ∀ c ∈ rr.code.data, c ∈ codeAlphabet)
    (hr : r ∈ db.rooms)
    (hletter : ∃ c ∈ r.code.data, c ∈ upperLetters) :
    (∃ room queue, getRoomRoute (jsToLowerCase r.code) db = ApiResult.ok (room, queue)) ∧
    ∀ ws conn reg,
      (wsHandle ws conn (RawMessage.parsed (ClientMsg.joinRoom (jsToLowerCase r.code)))
        ⟨db, reg⟩).outputs = [Output.send ws (ServerMsg.error "Room not found")] := by
  have hupper : jsToUpperCase (jsToLowerCase r.code) = r.code := by
    have hmap : (jsToLowerCase r.code).data.map jsCharUpper = r.code.data := by
      show (r.code.data.map jsCharLower).map jsCharUpper = r.code.data
      rw [List.map_map]
      have : ∀ c ∈ r.code.data, (jsCharUpper ∘ jsCharLower) c = id c := by
        intro c hc
        exact upper_lower_alpha c (hcodes r hr c hc)
      rw [List.map_congr_left this, List.map_id]
    exact congrArg String.mk hmap
  have hnone : getRoomByCode (jsToLowerCase r.code) db = none := by
    unfold getRoomByCode
    rw [List.find?_eq_none]
    intro rr hrr
    simp only [beq_iff_eq]
    intro hcontra
    obtain ⟨c0, hc0mem, hc0let⟩ := hletter
    have hlmem : jsCharLower c0 ∈ (jsToLowerCase r.code).data :=
      List.mem_map_of_mem jsCharLower hc0mem
    rw [← hcontra] at hlmem
    exact lower_letter_not_alpha c0 hc0let (hcodes rr hrr (jsCharLower c0) hlmem)
  constructor
  · have hsome : (getRoomByCode (jsToUpperCase (jsToLowerCase r.code)) db).isSome := by
      rw [hupper]
      unfold getRoomByCode
      exact List.find?_isSome.mpr ⟨r, hr, by simp⟩
    obtain ⟨room, hroomeq⟩ := Option.isSome_iff_exists.mp hsome
    refine ⟨room, getQueueByRoomId room.id db, ?_⟩
    unfold getRoomRoute
    rw [hroomeq]
  · intro ws conn reg
    simp only [wsHandle, hnone]

theorem lowercase_code_splits_channels_witness :
    (∃ room queue, getRoomRoute (jsToLowerCase "AAAAAA") dbRoom =
      ApiResult.ok (room, queue)) ∧
    ∀ ws conn reg,
      (wsHandle ws conn (RawMessage.parsed (ClientMsg.joinRoom (jsToLowerCase "AAAAAA")))
        ⟨dbRoom, reg⟩).outputs = [Output.send ws (ServerMsg.error "Room not found")] :=
  lowercase_code_splits_channels dbRoom
    ⟨0, "AAAAAA", none, none, none, false⟩ (by decide) (by decide) (by decide)

/-! ### Claim C4 -/

/-- C4 (amended): a frame JSON.parse rejects is answered with a single
error message to the originating socket only, with no state change; a
parsed frame whose type matches no recognized intent is silently dropped:
no message at all is sent, and no state changes. Both cases are total
functions of the model, mirroring that the caught exception path never
crashes the connection or the process. -/
theorem malformed_and_unknown_messages_are_local
    (ws : Nat) (st : Option Nat) (srv : ServerState) (t : String) :
    wsHandle ws st RawMessage.malformed srv =
      ⟨st, srv, [Output.send ws (ServerMsg.error "Invalid message format")]⟩ ∧
    wsHandle ws st (RawMessage.parsed (ClientMsg.other t)) srv = ⟨st, srv, []⟩ :=
  ⟨rfl, rfl⟩

/-- C4 (counterexample): for a concrete parsed message of unrecognized
type, the handler sends nothing at all — in particular it does not send
the error reply the claim asserts — though it indeed changes no state. -/
theorem unknown_type_sends_no_error :
    (wsHandle 0 none (RawMessage.parsed (ClientMsg.other "bogus"))
        ⟨⟨[], [], 0⟩, []⟩).outputs = [] ∧
    (wsHandle 0 none (RawMessage.parsed (ClientMsg.other "bogus"))
        ⟨⟨[], [], 0⟩, []⟩).state = ⟨⟨[], [], 0⟩, []⟩ ∧
    ∀ msg : ServerMsg,
      Output.send 0 msg ∉
        (wsHandle 0 none (RawMessage.parsed (ClientMsg.other "bogus"))
          ⟨⟨[], [], 0⟩, []⟩).outputs := by
  refine ⟨rfl, rfl, ?_⟩
  intro msg
  simp [wsHandle]

/-! ### Claim C9 -/

/-- C9: for a connection that has joined a room, two consecutive pause
intents each leave the room paused and each broadcast the
playback_state false message; the second is not suppressed. -/
theorem pause_idempotent (ws rid : Nat) (srv : ServerState) :
    (∀ r ∈ (wsHandle ws (some rid) (RawMessage.parsed ClientMsg.pause) srv).state.db.rooms,
        r.id = rid → r.isPlaying = false) ∧
    (wsHandle ws (some rid) (RawMessage.parsed ClientMsg.pause) srv).outputs =
      [Output.broadcast rid (ServerMsg.playbackState false)] ∧
    (wsHandle ws (some rid) (RawMessage.parsed ClientMsg.pause) srv).conn = some rid ∧
    (∀ r ∈ (wsHandle ws (some rid) (RawMessage.parsed ClientMsg.pause)
          (wsHandle ws (some rid) (RawMessage.parsed ClientMsg.pause) srv).state).state.db.rooms,
        r.id = rid → r.isPlaying = false) ∧
    (wsHandle ws (some rid) (RawMessage.parsed ClientMsg.pause)
        (wsHandle ws (some rid) (RawMessage.parsed ClientMsg.pause) srv).state).outputs =
      [Output.broadcast rid (ServerMsg.playbackState false)] := by
  refine ⟨?_, rfl, rfl, ?_, rfl⟩
  · exact isPlaying_updateRoom_self rid false srv.db
  · exact isPlaying_updateRoom_self rid false _

end Kara
